import Mathlib

/-!
Receipt processor: points calculator and receipt store.

A shallow embedding of `main.go` (package `main` of the receipt processor) and of the
standard-library functions it calls, followed by theorems about the embedding.

Conventions of the embedding:

* A Go `string` is a Lean `String`: a sequence of Unicode scalar values, i.e. a string holding
  valid UTF-8, which is what JSON decoding produces.  `len(s)` is the UTF-8 byte length.
* Go's `int` is the 64-bit two's-complement integer: values are `Int`s kept in range by
  `wrapInt` after every arithmetic operation (`addInt`).
* A `float64` is the type `Float64` below: a finite value is identified with its exact rational
  value (the sign of zero is not tracked, nothing in the program observes it).
* A run-time panic (index out of range) is the `none` of an `Option`.
-/

set_option autoImplicit false

/-! ## Machine integers -/

/-- The value of a Go `int` (64 bits, two's complement) holding the mathematical integer `x`
after wrap-around. -/
def wrapInt (x : Int) : Int := (x + 2 ^ 63) % 2 ^ 64 - 2 ^ 63

/-- Go's `a + b` on `int`. -/
def addInt (a b : Int) : Int := wrapInt (a + b)

/-- Go's `a * b` on `int`. -/
def mulInt (a b : Int) : Int := wrapInt (a * b)

/-- Largest value of a Go `int`. -/
def maxInt : Int := 2 ^ 63 - 1

/-- Smallest value of a Go `int`. -/
def minInt : Int := -2 ^ 63

/-! ## Package `strings` and `unicode` -/

namespace unicode

/-- Go's `unicode.IsSpace`: the Latin-1 spaces `'\t' '\n' '\v' '\f' '\r' ' '`, U+0085, U+00A0,
and beyond Latin-1 the code points of the Unicode `White_Space` property. -/
def IsSpace (r : Char) : Bool :=
  let n := r.toNat
  (0x09 ≤ n && n ≤ 0x0D) || n == 0x20 || n == 0x85 || n == 0xA0 || n == 0x1680 ||
  (0x2000 ≤ n && n ≤ 0x200A) || n == 0x2028 || n == 0x2029 || n == 0x202F || n == 0x205F ||
  n == 0x3000

end unicode

namespace strings

/-- The loop of `strings.Split` for a one-character separator: `acc` holds, reversed, the
characters of the segment being read. -/
def splitLoop (sep : Char) : List Char → List Char → List String
  | [], acc => [String.mk acc.reverse]
  | c :: cs, acc =>
    if c = sep then String.mk acc.reverse :: splitLoop sep cs []
    else splitLoop sep cs (c :: acc)

/-- Go's `strings.Split(s, sep)` for a separator `sep` of one character (the program calls it
with `"-"` and `":"`): the segments of `s` between the occurrences of `sep`, in order; there is
one segment more than there are occurrences. -/
def Split (s : String) (sep : Char) : List String := splitLoop sep s.data []

/-- Go's `strings.TrimSpace`: `s` without its leading and trailing white space, as defined by
`unicode.IsSpace`. -/
def TrimSpace (s : String) : String :=
  String.mk ((s.data.dropWhile unicode.IsSpace).rdropWhile unicode.IsSpace)

end strings

/-- Go's builtin `len` on a string: its length in bytes (UTF-8). -/
def len (s : String) : Int := (s.utf8ByteSize : Int)

/-! ## Package `strconv`: integers -/

namespace strconv

/-- The two kinds of `*strconv.NumError` (`ErrSyntax`, `ErrRange`). -/
inductive NumError where
  | ErrSyntax
  | ErrRange
  deriving DecidableEq, Repr

/-- The digit loop of `strconv.ParseUint(s, 10, bitSize)` from the accumulator `n`: a character
that is not a decimal digit is a syntax error with value 0; a value above `maxVal` (or above
the 64-bit range) is a range error with value `maxVal`. -/
def parseUintLoop (maxVal : Nat) : List Char → Nat → Nat × Option NumError
  | [], n => (n, none)
  | c :: cs, n =>
    if c.isDigit then
      let d := c.toNat - '0'.toNat
      if n ≥ (2 ^ 64 - 1) / 10 + 1 then (maxVal, some .ErrRange)
      else
        let n1 := (n * 10 + d) % 2 ^ 64
        if n1 < n * 10 ∨ n1 > maxVal then (maxVal, some .ErrRange)
        else parseUintLoop maxVal cs n1
    else (0, some .ErrSyntax)

/-- Go's `strconv.ParseUint(s, 10, bitSize)`. -/
def ParseUint (s : List Char) (bitSize : Nat) : Nat × Option NumError :=
  if s = [] then (0, some .ErrSyntax) else parseUintLoop (2 ^ bitSize - 1) s 0

/-- Go's `strconv.ParseInt(s, 10, bitSize)`: an optional sign and decimal digits.  The value
is 0 on a syntax error and the nearest bound of the `bitSize`-bit range on a range error. -/
def ParseInt (s : String) (bitSize : Nat) : Int × Option NumError :=
  if s.data = [] then (0, some .ErrSyntax)
  else
    let neg := s.data.head? = some '-'
    let digits := if s.data.head? = some '+' ∨ s.data.head? = some '-' then s.data.tail else s.data
    match ParseUint digits bitSize with
    | (_, some .ErrSyntax) => (0, some .ErrSyntax)
    | (un, _) =>
      let cutoff := 2 ^ (bitSize - 1)
      if ¬ neg ∧ un ≥ cutoff then ((cutoff : Int) - 1, some .ErrRange)
      else if neg ∧ un > cutoff then (-(cutoff : Int), some .ErrRange)
      else (if neg then -(un : Int) else (un : Int), none)

/-- The decimal digits of a natural number, most significant first; `fuel` bounds the number
of digits produced. -/
def formatDigits : Nat → Nat → List Char → List Char
  | 0, _, acc => acc
  | fuel + 1, n, acc =>
    let acc := Char.ofNat ('0'.toNat + n % 10) :: acc
    if n / 10 = 0 then acc else formatDigits fuel (n / 10) acc

/-- Go's `strconv.Itoa`: the decimal representation of an `int`, with a leading `-` when
negative. -/
def Itoa (i : Int) : String :=
  if i < 0 then String.mk ('-' :: formatDigits 20 i.natAbs [])
  else String.mk (formatDigits 20 i.natAbs [])

end strconv

/-! ## The program: data model and `CountAlphanum` -/

/-- The struct `Item`. -/
structure Item where
  ShortDescription : String
  Price : String
  deriving DecidableEq, Repr

/-- The struct `Receipt`. -/
structure Receipt where
  ID : String
  Retailer : String
  PurchaseDate : String
  PurchaseTime : String
  Total : String
  Items : List Item
  Points : String
  deriving DecidableEq, Repr

/-- The character class `[A-Za-z0-9]`. -/
def alnumClass (c : Char) : Bool :=
  ('A' ≤ c && c ≤ 'Z') || ('a' ≤ c && c ≤ 'z') || ('0' ≤ c && c ≤ '9')

/-- The closure `isAlphaNum` of `CountAlphanum`:
`regexp.MustCompile("^[A-Za-z0-9]+$").MatchString`, true of the strings that consist of one
or more characters of the class. -/
def isAlphaNum (s : String) : Bool := !s.data.isEmpty && s.data.all alnumClass

/-- The function `CountAlphanum`: ranges over the characters of `str` and counts those whose
one-character string matches `isAlphaNum`. -/
def CountAlphanum (str : String) : Int :=
  str.data.foldl (fun count char => if isAlphaNum (String.singleton char) then count + 1 else count) 0

/-! ## The type `float64` and package `math` -/

/-- A `float64`: a finite double, given by its exact rational value, an infinity, or a NaN. -/
inductive Float64 where
  | finite (q : ℚ)
  | inf (neg : Bool)
  | nan
  deriving DecidableEq

namespace Float64

/-- Halving `n` until it is below 2, at most `fuel` times: `k` plus the number of halvings. -/
def log2Loop : Nat → Nat → Nat → Nat
  | 0, _, k => k
  | fuel + 1, n, k => if n < 2 then k else log2Loop fuel (n / 2) (k + 1)

/-- The position of the leading bit of `n`: the largest `k` with `2 ^ k ≤ n` (0 for `n = 0`).
The fuel `n` is never used up. -/
def log2 (n : Nat) : Nat := log2Loop n n 0

/-- The exponent of the binade of `n / d` (for `n, d > 0`): the largest `e` with
`2 ^ e ≤ n / d`. -/
def floorLog2 (n d : Nat) : Int :=
  let e : Int := (log2 n : Int) - (log2 d : Int)
  if (if 0 ≤ e then d * 2 ^ e.toNat ≤ n else d ≤ n * 2 ^ (-e).toNat) then e else e - 1

/-- The integer nearest to `n / d`, a tie going to the even one. -/
def roundHalfEven (n d : Nat) : Nat :=
  let f := n / d
  let r := n % d
  if 2 * r < d then f else if d < 2 * r then f + 1 else if f % 2 = 0 then f else f + 1

/-- IEEE 754 round-to-nearest, ties-to-even, of a rational to binary64: 53 significant bits,
exponents from -1022 (below which the spacing stays `2 ^ -1074`) to 1023.  The magnitude is
rounded to a multiple `m * 2 ^ (e - 52)` of the unit in the last place of its binade; a result
of magnitude `2 ^ 1024` or more (`e ≥ 1024`, or `e = 1023` with `m` rounded up to `2 ^ 53`) is
an infinity. -/
def round (q : ℚ) : Float64 :=
  if q = 0 then finite 0
  else
    let n := q.num.natAbs
    let d := q.den
    let e : Int := max (floorLog2 n d) (-1022)
    let m : Nat :=
      if e ≤ 52 then roundHalfEven (n * 2 ^ (52 - e).toNat) d
      else roundHalfEven n (d * 2 ^ (e - 52).toNat)
    if 1024 ≤ e ∨ (e = 1023 ∧ m = 2 ^ 53) then inf (decide (q < 0))
    else
      let v : ℚ :=
        if e ≤ 52 then mkRat m (2 ^ (52 - e).toNat) else ((m * 2 ^ (e - 52).toNat : Nat) : ℚ)
      finite (if q < 0 then -v else v)

/-- Go's `x * y` on `float64`: the exact product, rounded. -/
def mul : Float64 → Float64 → Float64
  | finite a, finite b => round (a * b)
  | finite a, inf n => if a = 0 then nan else inf (n != decide (a < 0))
  | inf n, finite b => if b = 0 then nan else inf (n != decide (b < 0))
  | inf n, inf k => inf (n != k)
  | _, _ => nan

/-- Go's `x == 0` on `float64`. -/
def isZero : Float64 → Bool
  | finite q => decide (q = 0)
  | _ => false

end Float64

/-- A Go floating-point constant converted to `float64`: the nearest double. -/
def float64Const (q : ℚ) : Float64 := Float64.round q

namespace math

/-- The integer part of a rational, rounding toward zero. -/
def truncRat (q : ℚ) : Int := Int.tdiv q.num (q.den : Int)

/-- Go's `math.Mod(x, y)`: the remainder `x - y * trunc(x / y)` of the division of `x` by `y`,
which is exact; NaN when `x` is infinite or NaN or when `y` is 0 or NaN; `x` when `y` is
infinite. -/
def Mod : Float64 → Float64 → Float64
  | .finite x, .finite y => if y = 0 then .nan else .finite (x - y * (truncRat (x / y) : ℚ))
  | .finite x, .inf _ => .finite x
  | _, _ => .nan

/-- Go's `math.Ceil`: the least integer value not below `x`; infinities and NaN are
returned unchanged. -/
def Ceil : Float64 → Float64
  | .finite q => .finite ((-((-q.num) / (q.den : Int)) : Int) : ℚ)
  | x => x

end math

/-- Go's conversion `int(x)` of a `float64`: the value truncated toward zero when that fits an
`int`.  When it does not (too large, infinite or NaN) the result is implementation-dependent
in Go: it is `conv x` for the parameter `conv`, wrapped to an `int`. -/
def float64ToInt (conv : Float64 → Int) : Float64 → Int
  | .finite q =>
    if minInt ≤ math.truncRat q ∧ math.truncRat q ≤ maxInt then math.truncRat q
    else wrapInt (conv (.finite q))
  | x => wrapInt (conv x)

/-! ## Package `strconv`: floating point -/

namespace strconv

/-- ASCII lower-casing, as the parser uses it to compare letters. -/
def lower (c : Char) : Char := if 'A' ≤ c ∧ c ≤ 'Z' then Char.ofNat (c.toNat + 32) else c

/-- The value of a hexadecimal or decimal digit character. -/
def digitVal (c : Char) : Nat :=
  if c.isDigit then c.toNat - '0'.toNat else (lower c).toNat - 'a'.toNat + 10

/-- What the mantissa loop of `readFloat` has read: the digits as a number (in the base of the
literal), how many of them follow the point, whether a point and whether a digit was seen. -/
structure Mantissa where
  mant : Nat
  frac : Nat
  sawdot : Bool
  sawdigits : Bool

/-- The mantissa loop of `readFloat`: digits, at most one point, underscores (checked
afterwards by `underscoreOK`); it stops at the first other character and returns the rest. -/
def readMantissa (hex : Bool) : List Char → Mantissa → Mantissa × List Char
  | [], st => (st, [])
  | c :: cs, st =>
    if c = '_' then readMantissa hex cs st
    else if c = '.' then
      if st.sawdot then (st, c :: cs) else readMantissa hex cs { st with sawdot := true }
    else if c.isDigit ∨ (hex ∧ 'a' ≤ lower c ∧ lower c ≤ 'f') then
      readMantissa hex cs
        { st with
          sawdigits := true
          mant := st.mant * (if hex then 16 else 10) + digitVal c
          frac := if st.sawdot then st.frac + 1 else st.frac }
    else (st, c :: cs)

/-- The exponent loop of `readFloat`: digits and underscores; the exponent stops growing once
it has reached 10000. -/
def readExponent : List Char → Nat → Nat × List Char
  | [], e => (e, [])
  | c :: cs, e =>
    if c = '_' then readExponent cs e
    else if c.isDigit then readExponent cs (if e < 10000 then e * 10 + (c.toNat - '0'.toNat) else e)
    else (e, c :: cs)

/-- The loop of `underscoreOK` over the number proper; `saw` is the kind of the last
character: `'0'` a digit or base prefix, `'_'` an underscore, `'^'` the start, `'!'` other. -/
def underscoreLoop (hex : Bool) : List Char → Char → Bool
  | [], saw => saw != '_'
  | c :: cs, saw =>
    if c.isDigit ∨ (hex ∧ 'a' ≤ lower c ∧ lower c ≤ 'f') then underscoreLoop hex cs '0'
    else if c = '_' then (if saw != '0' then false else underscoreLoop hex cs '_')
    else if saw = '_' then false
    else underscoreLoop hex cs '!'

/-- Go's `underscoreOK`: an underscore may only stand between digits, or between a base prefix
and a digit. -/
def underscoreOK (s : List Char) : Bool :=
  let s := if s.head? = some '-' ∨ s.head? = some '+' then s.tail else s
  match s with
  | '0' :: x :: rest =>
    if lower x = 'b' ∨ lower x = 'o' ∨ lower x = 'x' then underscoreLoop (lower x = 'x') rest '0'
    else underscoreLoop false s '^'
  | _ => underscoreLoop false s '^'

/-- The rational `m * b ^ k` for an integer exponent `k`. -/
def scale (m b : Nat) (k : Int) : ℚ :=
  if 0 ≤ k then ((m * b ^ k.toNat : Nat) : ℚ) else mkRat m (b ^ (-k).toNat)

/-- Go's `readFloat` on a whole string: the exact value the string denotes when it is a
well-formed decimal or hexadecimal floating-point number (optional sign, digits with at most
one point, optional exponent, mandatory for a hexadecimal one), `none` when it is not. -/
def readFloat (s : List Char) : Option ℚ :=
  if s = [] then none
  else
    let neg := s.head? = some '-'
    let s1 := if s.head? = some '+' ∨ s.head? = some '-' then s.tail else s
    let hex := decide (s1.head? = some '0' ∧ (s1.tail.head?.map lower) = some 'x' ∧ 3 ≤ s1.length)
    let s2 := if hex then s1.drop 2 else s1
    let (st, s3) := readMantissa hex s2 ⟨0, 0, false, false⟩
    if ¬ st.sawdigits then none
    else
      let expChar := if hex then 'p' else 'e'
      let parsed : Option (Int × List Char) :=
        match s3 with
        | c :: s4 =>
          if lower c = expChar then
            if s4 = [] then none
            else
              let eneg := s4.head? = some '-'
              let s5 := if s4.head? = some '+' ∨ s4.head? = some '-' then s4.tail else s4
              match s5 with
              | d :: _ =>
                if d.isDigit then
                  let (e, s6) := readExponent s5 0
                  some (if eneg then -(e : Int) else (e : Int), s6)
                else none
              | [] => none
          else if hex then none else some (0, s3)
        | [] => if hex then none else some (0, [])
      match parsed with
      | none => none
      | some (e, rest) =>
        if rest ≠ [] ∨ ¬ underscoreOK s then none
        else
          let v : ℚ := if hex then scale st.mant 2 (e - 4 * st.frac) else scale st.mant 10 (e - st.frac)
          some (if neg then -v else v)

/-- Go's `special` on a whole string: `inf` or `infinity` with an optional sign, or `nan`,
letter case ignored. -/
def special (s : List Char) : Option Float64 :=
  let neg := s.head? = some '-'
  let s1 := if s.head? = some '+' ∨ s.head? = some '-' then s.tail else s
  let l := s1.map (fun c => if 'A' ≤ c ∧ c ≤ 'Z' then Char.ofNat (c.toNat + 32) else c)
  if l = "inf".data ∨ l = "infinity".data then some (.inf neg)
  else if s.map (fun c => if 'A' ≤ c ∧ c ≤ 'Z' then Char.ofNat (c.toNat + 32) else c) = "nan".data
  then some .nan
  else none

/-- Go's `strconv.ParseFloat(s, 64)`: the special values, or the double nearest to the number
that `s` denotes (IEEE 754 unbiased rounding).  A string that is not well formed gives 0 and
`ErrSyntax`; a number too large for a double gives an infinity and `ErrRange`. -/
def ParseFloat (s : String) : Float64 × Option NumError :=
  match special s.data with
  | some v => (v, none)
  | none =>
    match readFloat s.data with
    | none => (.finite 0, some .ErrSyntax)
    | some q =>
      match Float64.round q with
      | .inf n => (.inf n, some .ErrRange)
      | v => (v, none)

end strconv

/-! ## The program: `calculatePoints` -/

/-- The body of the loop over `receipt.Items` in `calculatePoints`: when the byte length of the
trimmed description is divisible by 3, the price is parsed (an error is ignored) and
`int(math.Ceil(price * 0.2))` is added to `points`. -/
def descriptionStep (conv : Float64 → Int) (points : Int) (item : Item) : Int :=
  if Int.tmod (len (strings.TrimSpace item.ShortDescription)) 3 = 0 then
    let price := (strconv.ParseFloat item.Price).1
    addInt points (float64ToInt conv (math.Ceil (Float64.mul price (float64Const 0.2))))
  else points

/-- The function `calculatePoints` up to its last line: the value of `points` when the function
returns, or `none` when an index expression panics.  `conv` gives the implementation-dependent
results of `int(x)` (see `float64ToInt`). -/
def calculatePointsInt (conv : Float64 → Int) (receipt : Receipt) : Option Int :=
  let points : Int := 0
  -- one point for each alphanumeric char in retailer name
  let points := addInt points (CountAlphanum receipt.Retailer)
  -- parse total to float
  let (total, parseTotalErr) := strconv.ParseFloat receipt.Total
  let points :=
    if parseTotalErr = none then
      -- 50 points if total is round number
      let points := if (math.Mod total (float64Const 1)).isZero then addInt points 50 else points
      -- 25 points if total is multiple of 0.25
      if (math.Mod total (float64Const 0.25)).isZero then addInt points 25 else points
    else points
  -- 5 points for every 2 items
  let itemPoints := mulInt (Int.tdiv (receipt.Items.length : Int) 2) 5
  let points := addInt points itemPoints
  -- points for item description
  let points := receipt.Items.foldl (descriptionStep conv) points
  -- 6 points for odd dates
  let dateSplit := strings.Split receipt.PurchaseDate '-'
  match dateSplit[2]? with
  | none => none
  | some dateStr =>
    let date := (strconv.ParseInt dateStr 32).1
    let points := if Int.tmod date 2 ≠ 0 then addInt points 6 else points
    -- 10 points for purchase between 2pm and 4pm
    let timeSplit := strings.Split receipt.PurchaseTime ':'
    match timeSplit[0]?, timeSplit[1]? with
    | some hrStr, some minStr =>
      let hr := (strconv.ParseInt hrStr 32).1
      let min := (strconv.ParseInt minStr 32).1
      let points := if hr ≥ 14 ∧ min > 0 ∧ hr < 16 then addInt points 10 else points
      some points
    | _, _ => none

/-- The function `calculatePoints`: the points of a receipt as a decimal string
(`strconv.Itoa(points)`), or `none` when the function panics. -/
def calculatePoints (conv : Float64 → Int) (receipt : Receipt) : Option String :=
  (calculatePointsInt conv receipt).map strconv.Itoa

/-! ## The program: validation, `processReceipt` and `getPoints` -/

/-- The pattern `^\d{4}\-(0[1-9]|1[012])\-(0[1-9]|[12][0-9]|3[01])$` of `PurchaseDate`. -/
def matchDate (s : String) : Bool :=
  match s.data with
  | [y1, y2, y3, y4, s1, m1, m2, s2, d1, d2] =>
    y1.isDigit && y2.isDigit && y3.isDigit && y4.isDigit && s1 == '-' &&
    ((m1 == '0' && '1' ≤ m2 && m2 ≤ '9') || (m1 == '1' && (m2 == '0' || m2 == '1' || m2 == '2'))) &&
    s2 == '-' &&
    ((d1 == '0' && '1' ≤ d2 && d2 ≤ '9') || ((d1 == '1' || d1 == '2') && d2.isDigit) ||
      (d1 == '3' && (d2 == '0' || d2 == '1')))
  | _ => false

/-- The pattern `^([0-9]|0[0-9]|1[0-9]|2[0-3]):[0-5][0-9]$` of `PurchaseTime`. -/
def matchTime (s : String) : Bool :=
  match s.data with
  | [h, c, m1, m2] => h.isDigit && c == ':' && '0' ≤ m1 && m1 ≤ '5' && m2.isDigit
  | [h1, h2, c, m1, m2] =>
    (((h1 == '0' || h1 == '1') && h2.isDigit) || (h1 == '2' && '0' ≤ h2 && h2 ≤ '3')) &&
    c == ':' && '0' ≤ m1 && m1 ≤ '5' && m2.isDigit
  | _ => false

/-- The pattern `^\d+\.\d{2}$` of `Total` and of an item's `Price`. -/
def matchMoney (s : String) : Bool :=
  let whole := s.data.take (s.data.length - 3)
  !whole.isEmpty && whole.all Char.isDigit &&
  match s.data.drop (s.data.length - 3) with
  | [p, d1, d2] => p == '.' && d1.isDigit && d2.isDigit
  | _ => false

/-- The pattern `^\S+$` of an item's `ShortDescription`; in Go's regexp syntax `\s` is the
class `[\t\n\f\r ]` and `\S` its complement. -/
def matchNoSpace (s : String) : Bool :=
  !s.data.isEmpty &&
  s.data.all (fun c => !(c == '\t' || c == '\n' || c == '\x0c' || c == '\r' || c == ' '))

/-- The `binding:"required"` checks that `c.BindJSON` runs on the decoded receipt: the
required string fields are not empty.  (`required` on `Items` asks for a list that is present;
the `min=1` of `validate` asks for more.) -/
def bindRequired (receipt : Receipt) : Bool :=
  receipt.Retailer != "" && receipt.PurchaseDate != "" && receipt.PurchaseTime != "" &&
  receipt.Total != ""

/-- The checks of `validator.Validate(receipt)`, from the `validate` tags: the patterns of
`PurchaseDate`, `PurchaseTime` and `Total`, at least one item (`min=1`), and for each item the
patterns of `ShortDescription` and `Price`.  (The `validate` tag of `Retailer` holds `\s` in a
quoted tag value, which the tag syntax does not admit, so no rule is read from it; a non-empty
retailer is already required by the binding.) -/
def validate (receipt : Receipt) : Bool :=
  matchDate receipt.PurchaseDate && matchTime receipt.PurchaseTime && matchMoney receipt.Total &&
  decide (1 ≤ receipt.Items.length) &&
  receipt.Items.all (fun item => matchNoSpace item.ShortDescription && matchMoney item.Price)

/-- The HTTP responses of the two handlers. -/
inductive Response where
  /-- Status 200 of `processReceipt`, with the body `{"id": id}`. -/
  | okID (id : String)
  /-- Status 200 of `getPoints`, with the body `{"points": points}`. -/
  | okPoints (points : String)
  /-- Status 400, with an error message. -/
  | badRequest
  /-- Status 404, "No receipt found for that id". -/
  | notFound
  /-- Status 500, written by the recovery middleware of `gin.Default()` after a panic. -/
  | internalServerError
  deriving DecidableEq, Repr

/-- The handler `processReceipt`, as a function of the global `receipts`, of the request body
(`none` when it does not decode to a `Receipt`) and of the identifier that `uuid.New()`
returns: the new value of `receipts` and the response. -/
def processReceipt (conv : Float64 → Int) (receipts : List Receipt) (body : Option Receipt)
    (uuid : String) : List Receipt × Response :=
  -- create new receipt and read from body
  match body with
  | none => (receipts, .badRequest)
  | some receipt =>
    if ¬ bindRequired receipt then (receipts, .badRequest)
    else if ¬ validate receipt then (receipts, .badRequest)
    else
      -- generate unique ID
      let receipt := { receipt with ID := uuid }
      -- calculate points
      match calculatePoints conv receipt with
      | none => (receipts, .internalServerError)
      | some points =>
        let receipt := { receipt with Points := points }
        -- add receipt to receipts array
        (receipts ++ [receipt], .okID receipt.ID)

/-- The handler `getPoints`, as a function of the global `receipts` and of the path parameter
`id`: the points of the first receipt with that id, or not found. -/
def getPoints : List Receipt → String → Response
  | [], _ => .notFound
  | receipt :: rest, id => if receipt.ID = id then .okPoints receipt.Points else getPoints rest id

/-! ## The store under a sequence of requests -/

/-- A request to the server: a submission (`POST /receipt/process`) with its decoded body and
the identifier that `uuid.New()` returns for it, or a lookup (`GET /receipt/:id/points`). -/
inductive Request where
  | submit (body : Option Receipt) (uuid : String)
  | lookup (id : String)

/-- The router: a submission runs `processReceipt`, a lookup runs `getPoints`, which reads the
global `receipts` and leaves it as it is. -/
def handle (conv : Float64 → Int) (receipts : List Receipt) : Request → List Receipt × Response
  | .submit body uuid => processReceipt conv receipts body uuid
  | .lookup id => (receipts, getPoints receipts id)

/-- The value of the global `receipts` after the server, started with `receipts = []Receipt{}`,
has handled the requests one after the other. -/
def storeAfter (conv : Float64 → Int) (requests : List Request) : List Receipt :=
  requests.foldl (fun receipts request => (handle conv receipts request).1) []

/-! ## The amounts the rules of `calculatePoints` add -/

/-- Rule 1 (retailer): the amount of `points += CountAlphanum(receipt.Retailer)`. -/
def retailerPoints (retailer : String) : Int := CountAlphanum retailer

/-- Rule 2 (round total): 50 when `total` parses without error and `math.Mod(total, 1) == 0`. -/
def roundDollarPoints (total : String) : Int :=
  if (strconv.ParseFloat total).2 = none ∧
      (math.Mod (strconv.ParseFloat total).1 (float64Const 1)).isZero then 50 else 0

/-- Rule 3 (quarter total): 25 when `total` parses without error and
`math.Mod(total, 0.25) == 0`. -/
def quarterPoints (total : String) : Int :=
  if (strconv.ParseFloat total).2 = none ∧
      (math.Mod (strconv.ParseFloat total).1 (float64Const 0.25)).isZero then 25 else 0

/-- Rule 4 (item count): the amount `(len(receipt.Items) / 2) * 5`. -/
def itemCountPoints (items : List Item) : Int := mulInt (Int.tdiv (items.length : Int) 2) 5

/-- Rule 5 (description length), for one item: `int(math.Ceil(price * 0.2))` when the byte
length of the trimmed description is divisible by 3, nothing otherwise. -/
def descriptionPoints (conv : Float64 → Int) (item : Item) : Int :=
  if Int.tmod (len (strings.TrimSpace item.ShortDescription)) 3 = 0 then
    float64ToInt conv (math.Ceil (Float64.mul (strconv.ParseFloat item.Price).1 (float64Const 0.2)))
  else 0

/-- Rule 6 (odd day): 6 when the third `-`-separated segment of the date parses to an odd
number; `none` when there is no third segment (the index expression panics). -/
def oddDayPoints (purchaseDate : String) : Option Int :=
  ((strings.Split purchaseDate '-')[2]?).map fun dateStr =>
    if Int.tmod (strconv.ParseInt dateStr 32).1 2 ≠ 0 then 6 else 0

/-- Rule 7 (afternoon): 10 when `hr >= 14 && min > 0 && hr < 16` for the first two
`:`-separated segments of the time; `none` when there is no second segment. -/
def afternoonPoints (purchaseTime : String) : Option Int :=
  match (strings.Split purchaseTime ':')[0]?, (strings.Split purchaseTime ':')[1]? with
  | some hrStr, some minStr =>
    some (if (strconv.ParseInt hrStr 32).1 ≥ 14 ∧ (strconv.ParseInt minStr 32).1 > 0 ∧
      (strconv.ParseInt hrStr 32).1 < 16 then 10 else 0)
  | _, _ => none

/-- A conversion `int(x)` for the values that do not fit: the result of the amd64 conversion
instruction, the smallest `int`, whatever the operand. -/
def convAMD64 : Float64 → Int := fun _ => minInt

/-! ## Reference predicates and example receipts -/

/-- An ASCII letter (`A`-`Z`, `a`-`z`) or an ASCII digit (`0`-`9`), by code point. -/
def isASCIILetterOrDigit (c : Char) : Bool :=
  (65 ≤ c.toNat && c.toNat ≤ 90) || (97 ≤ c.toNat && c.toNat ≤ 122) ||
  (48 ≤ c.toNat && c.toNat ≤ 57)

/-- A receipt that passes validation: retailer "M&M Corner Market", four items, total "9.00",
bought on 2022-03-20 at 14:33. -/
def marketReceipt : Receipt where
  ID := ""
  Retailer := "M&M Corner Market"
  PurchaseDate := "2022-03-20"
  PurchaseTime := "14:33"
  Total := "9.00"
  Items := [⟨"Gatorade", "2.25"⟩, ⟨"Gatorade", "2.25"⟩, ⟨"Gatorade", "2.25"⟩, ⟨"Gatorade", "2.25"⟩]
  Points := ""

/-- The classic example receipt of the specification: retailer "Target", two items. -/
def classicReceipt : Receipt where
  ID := ""
  Retailer := "Target"
  PurchaseDate := "2022-01-01"
  PurchaseTime := "13:01"
  Total := "35.35"
  Items := [⟨"Mountain Dew 12PK", "6.49"⟩, ⟨"Emils Cheese Pizza", "12.25"⟩]
  Points := ""

/-- A sequence of requests: the market receipt is submitted and looked up, the classic receipt
is submitted (and rejected), a body that does not decode is submitted, an unknown id is looked
up. -/
def exampleRequests : List Request :=
  [.submit (some marketReceipt) "7fb1377b-b223-49d9-a31a-5a02701dd310",
   .lookup "7fb1377b-b223-49d9-a31a-5a02701dd310",
   .submit (some classicReceipt) "adb6b560-0eef-42bc-9d16-df48f30e89b2",
   .submit none "3c8a0e5f-4f41-4c8e-bd2a-6f8c8b1c9a10",
   .lookup "no-such-id"]

/-- The double `x` is finite and its integer part is within the range of `int`, so that the
conversion `int(x)` is defined by the language. -/
def fitsInt : Float64 → Bool
  | .finite q => decide (minInt ≤ math.truncRat q) && decide (math.truncRat q ≤ maxInt)
  | _ => false

/-- The double `x` is not negative and not a NaN: a finite value that is at least 0, or the
positive infinity. -/
def Float64.nonneg : Float64 → Prop
  | .finite q => 0 ≤ q
  | .inf neg => neg = false
  | .nan => False

/-- The sum of the amounts of the seven rules as integers, without wrap-around, for the amounts
`day` and `afternoon` of the last two rules. -/
def exactSum (conv : Float64 → Int) (receipt : Receipt) (day afternoon : Int) : Int :=
  CountAlphanum receipt.Retailer + roundDollarPoints receipt.Total + quarterPoints receipt.Total +
    5 * ((receipt.Items.length / 2 : Nat) : Int) +
    (receipt.Items.map (descriptionPoints conv)).sum + day + afternoon

/-- A receipt that passes validation and whose two items are priced "46116860184273874000.00"
each. -/
def costlyReceipt : Receipt :=
  { marketReceipt with
    Items := [⟨"abc", "46116860184273874000.00"⟩, ⟨"abc", "46116860184273874000.00"⟩] }

/-- A receipt that passes validation and whose score at the purchase time "14:00" is 10 below
the largest `int`: two items, priced "46116860184273874000.00" and "4600.00". -/
def nearMaxReceipt : Receipt :=
  { marketReceipt with
    Items := [⟨"abc", "46116860184273874000.00"⟩, ⟨"abc", "4600.00"⟩] }

/-- A price that matches the pattern `^\d+\.\d{2}$` and is too large for a `float64`: the digit
1 followed by 309 zeros, a point and two zeros (the number `10 ^ 309`). -/
def hugePrice : String := String.mk ('1' :: List.replicate 309 '0' ++ ['.', '0', '0'])

/-! ## Machine arithmetic -/

theorem wrapInt_of_mem {x : Int} (h₁ : minInt ≤ x) (h₂ : x ≤ maxInt) : wrapInt x = x := by
  unfold wrapInt; unfold minInt at h₁; unfold maxInt at h₂; omega

theorem wrapInt_bounds (x : Int) : minInt ≤ wrapInt x ∧ wrapInt x ≤ maxInt := by
  unfold wrapInt minInt maxInt; omega

theorem wrapInt_wrapInt_add (a b : Int) : wrapInt (wrapInt a + b) = wrapInt (a + b) := by
  unfold wrapInt; omega

theorem wrapInt_add_wrapInt (a b : Int) : wrapInt (a + wrapInt b) = wrapInt (a + b) := by
  unfold wrapInt; omega

theorem wrapInt_idem (a : Int) : wrapInt (wrapInt a) = wrapInt a := by
  unfold wrapInt; omega

theorem addInt_wrapInt (a b : Int) : addInt (wrapInt a) b = wrapInt (a + b) := by
  unfold addInt; exact wrapInt_wrapInt_add a b

/-! ## `calculatePoints` as a sum of rule amounts -/

theorem descriptionStep_wrapInt (conv : Float64 → Int) (a : Int) (item : Item) :
    descriptionStep conv (wrapInt a) item = wrapInt (a + descriptionPoints conv item) := by
  unfold descriptionStep descriptionPoints
  split_ifs with h
  · exact addInt_wrapInt _ _
  · simp

theorem foldl_descriptionStep (conv : Float64 → Int) (items : List Item) (a : Int) :
    items.foldl (descriptionStep conv) (wrapInt a) =
      wrapInt (a + (items.map (descriptionPoints conv)).sum) := by
  induction items generalizing a with
  | nil => simp
  | cons item rest ih =>
    simp only [List.foldl_cons, List.map_cons, List.sum_cons, descriptionStep_wrapInt, ih]
    congr 1; ring

theorem calculatePointsInt_eq (conv : Float64 → Int) (receipt : Receipt) :
    calculatePointsInt conv receipt =
      (oddDayPoints receipt.PurchaseDate).bind fun day =>
        (afternoonPoints receipt.PurchaseTime).map fun afternoon =>
          wrapInt (retailerPoints receipt.Retailer + roundDollarPoints receipt.Total +
            quarterPoints receipt.Total + itemCountPoints receipt.Items +
            (receipt.Items.map (descriptionPoints conv)).sum + day + afternoon) := by
  have key : ∀ p : Int,
      (if (strconv.ParseFloat receipt.Total).2 = none then
        (if (math.Mod (strconv.ParseFloat receipt.Total).1 (float64Const 0.25)).isZero then
          addInt (if (math.Mod (strconv.ParseFloat receipt.Total).1 (float64Const 1)).isZero
            then addInt (wrapInt p) 50 else wrapInt p) 25
        else (if (math.Mod (strconv.ParseFloat receipt.Total).1 (float64Const 1)).isZero
            then addInt (wrapInt p) 50 else wrapInt p))
      else wrapInt p) =
      wrapInt (p + roundDollarPoints receipt.Total + quarterPoints receipt.Total) := by
    intro p
    unfold roundDollarPoints quarterPoints
    by_cases h0 : (strconv.ParseFloat receipt.Total).2 = none <;>
    by_cases h1 : (math.Mod (strconv.ParseFloat receipt.Total).1 (float64Const 1)).isZero = true <;>
    by_cases h2 : (math.Mod (strconv.ParseFloat receipt.Total).1 (float64Const 0.25)).isZero = true <;>
    simp [h0, h1, h2, addInt_wrapInt, addInt, wrapInt_wrapInt_add]
  unfold calculatePointsInt oddDayPoints afternoonPoints
  simp only []
  have e0 : addInt 0 (CountAlphanum receipt.Retailer) = wrapInt (CountAlphanum receipt.Retailer) := by
    simp [addInt]
  rw [e0, key]
  simp only [addInt_wrapInt, foldl_descriptionStep]
  cases (strings.Split receipt.PurchaseDate '-')[2]? with
  | none => rfl
  | some dateStr =>
    cases (strings.Split receipt.PurchaseTime ':')[0]? with
    | none => rfl
    | some hrStr =>
      cases (strings.Split receipt.PurchaseTime ':')[1]? with
      | none => rfl
      | some minStr =>
        simp only [retailerPoints, Option.map_some', Option.some_bind, Option.some.injEq]
        unfold itemCountPoints
        split_ifs <;> simp only [addInt_wrapInt, add_zero]

/-! ## Rule 1: the retailer name -/

theorem isAlphaNum_singleton (c : Char) : isAlphaNum (String.singleton c) = c.isAlphanum := by
  have h : (String.singleton c).data = [c] := rfl
  simp only [isAlphaNum, h, Char.isAlphanum, Char.isAlpha, Char.isUpper, Char.isLower,
    Char.isDigit]
  unfold alnumClass
  simp [Char.le_def, UInt32.le_def]

theorem isAlphanum_eq_isASCIILetterOrDigit (c : Char) :
    c.isAlphanum = isASCIILetterOrDigit c := by
  simp only [Char.isAlphanum, Char.isAlpha, Char.isUpper, Char.isLower, Char.isDigit,
    isASCIILetterOrDigit, Char.toNat]
  simp [UInt32.le_def, UInt32.toNat, BitVec.le_def]

theorem foldl_count_alphanum (l : List Char) (n : Int) :
    l.foldl (fun count char => if isAlphaNum (String.singleton char) then count + 1 else count) n =
      n + ((l.countP isASCIILetterOrDigit : Nat) : Int) := by
  induction l generalizing n with
  | nil => simp
  | cons c cs ih =>
    rw [List.foldl_cons, ih, List.countP_cons, isAlphaNum_singleton,
      isAlphanum_eq_isASCIILetterOrDigit]
    split_ifs <;> push_cast <;> ring

/-- C4 (retailer rule).  For every string, `CountAlphanum` is the number of its characters that
are ASCII letters or ASCII digits, every other character counting 0 (so a space, `&` and the
non-ASCII letter `é` count nothing); `CountAlphanum "Target" = 6` and
`CountAlphanum "M&M Corner Market" = 14`; and this count is the amount that `calculatePoints`
adds for the retailer: the returned points are the `int` sum of it and of the amounts of the
other rules. -/
theorem retailer_rule_counts_ascii_alphanumerics :
    (∀ s : String, CountAlphanum s = ((s.data.countP isASCIILetterOrDigit : Nat) : Int)) ∧
    CountAlphanum " " = 0 ∧ CountAlphanum "&" = 0 ∧ CountAlphanum "é" = 0 ∧
    CountAlphanum "Target" = 6 ∧ CountAlphanum "M&M Corner Market" = 14 ∧
    ∀ (conv : Float64 → Int) (receipt : Receipt),
      calculatePointsInt conv receipt =
        (oddDayPoints receipt.PurchaseDate).bind fun day =>
          (afternoonPoints receipt.PurchaseTime).map fun afternoon =>
            wrapInt (((receipt.Retailer.data.countP isASCIILetterOrDigit : Nat) : Int) +
              roundDollarPoints receipt.Total + quarterPoints receipt.Total +
              itemCountPoints receipt.Items +
              (receipt.Items.map (descriptionPoints conv)).sum + day + afternoon) := by
  have h : ∀ s : String, CountAlphanum s = ((s.data.countP isASCIILetterOrDigit : Nat) : Int) := by
    intro s
    unfold CountAlphanum
    rw [foldl_count_alphanum, zero_add]
  refine ⟨h, by decide, by decide, by decide, by decide, by decide, ?_⟩
  intro conv receipt
  rw [calculatePointsInt_eq, retailerPoints, h]

/-! ## Rule 4: the number of items -/

theorem wrapInt_add_wrapInt_add (a b c : Int) :
    wrapInt (a + wrapInt b + c) = wrapInt (a + b + c) := by
  unfold wrapInt; omega

theorem itemCountPoints_eq (items : List Item) :
    itemCountPoints items = wrapInt (5 * ((items.length / 2 : Nat) : Int)) := by
  unfold itemCountPoints mulInt
  congr 1
  have : Int.tdiv (items.length : Int) 2 = ((items.length / 2 : Nat) : Int) := by
    rw [Int.tdiv_eq_ediv (by omega) (by omega)]
    norm_cast
  rw [this]; ring

/-- C7 (item-count rule).  For every receipt with `n` items, the amount `calculatePoints` adds
for the pairing rule is `5 * floor(n / 2)`: the returned points are the `int` sum of this
amount and of the amounts of the other rules; the amount is a function of `n` alone, the same
for any two item lists of equal length whatever their descriptions and prices; four items
give 10 and three items give 5. -/
theorem item_count_rule (conv : Float64 → Int) (receipt : Receipt) :
    calculatePointsInt conv receipt =
      ((oddDayPoints receipt.PurchaseDate).bind fun day =>
        (afternoonPoints receipt.PurchaseTime).map fun afternoon =>
          wrapInt (retailerPoints receipt.Retailer + roundDollarPoints receipt.Total +
            quarterPoints receipt.Total + 5 * ((receipt.Items.length / 2 : Nat) : Int) +
            (receipt.Items.map (descriptionPoints conv)).sum + day + afternoon)) ∧
    (∀ a b c d : Item, itemCountPoints [a, b, c, d] = 10) ∧
    (∀ a b c : Item, itemCountPoints [a, b, c] = 5) ∧
    (∀ items items' : List Item,
      items.length = items'.length → itemCountPoints items = itemCountPoints items') := by
  have h10 : wrapInt 10 = 10 := by decide
  have h5 : wrapInt 5 = 5 := by decide
  refine ⟨?_, fun _ _ _ _ => by simp [itemCountPoints_eq, h10],
    fun _ _ _ => by simp [itemCountPoints_eq, h5], ?_⟩
  · have h : ∀ a x s d t : Int,
        wrapInt (a + wrapInt x + s + d + t) = wrapInt (a + x + s + d + t) := by
      intro a x s d t; unfold wrapInt; omega
    rw [calculatePointsInt_eq]
    simp only [itemCountPoints_eq, h]
  · intro items items' h
    simp [itemCountPoints, h]

/-- Witness for `item_count_rule`: two item lists of length 2 with different descriptions and
prices earn the same amount. -/
theorem item_count_rule_witness :
    [(⟨"a", "1.00"⟩ : Item), ⟨"b", "2.00"⟩].length = [(⟨"cde", "9.99"⟩ : Item), ⟨"f", "0.25"⟩].length ∧
    itemCountPoints [⟨"a", "1.00"⟩, ⟨"b", "2.00"⟩] = itemCountPoints [⟨"cde", "9.99"⟩, ⟨"f", "0.25"⟩] :=
  ⟨rfl, (item_count_rule convAMD64 marketReceipt).2.2.2 _ _ rfl⟩

/-! ## Rule 7: the time of purchase -/

theorem calculatePointsInt_bounds {conv : Float64 → Int} {receipt : Receipt} {p : Int}
    (h : calculatePointsInt conv receipt = some p) : minInt ≤ p ∧ p ≤ maxInt := by
  rw [calculatePointsInt_eq] at h
  cases hd : oddDayPoints receipt.PurchaseDate with
  | none => simp [hd] at h
  | some day =>
    cases ha : afternoonPoints receipt.PurchaseTime with
    | none => simp [hd, ha] at h
    | some afternoon =>
      simp only [hd, ha, Option.some_bind, Option.map_some', Option.some.injEq] at h
      rw [← h]
      exact wrapInt_bounds _

theorem calculatePointsInt_time (conv : Float64 → Int) (receipt : Receipt) (time : String)
    (bonus : Int) (h : afternoonPoints time = some bonus) :
    calculatePointsInt conv { receipt with PurchaseTime := time } =
      (oddDayPoints receipt.PurchaseDate).map fun day =>
        wrapInt (retailerPoints receipt.Retailer + roundDollarPoints receipt.Total +
          quarterPoints receipt.Total + itemCountPoints receipt.Items +
          (receipt.Items.map (descriptionPoints conv)).sum + day + bonus) := by
  rw [calculatePointsInt_eq]
  simp only [h, Option.map_some']
  cases oddDayPoints receipt.PurchaseDate <;> rfl

/-- C1 (afternoon rule, general form), evaluated where the code departs from it: the time
"15:00" matches the validated pattern and lies strictly between 14:00 and 16:00, yet the rule
adds nothing for it, because the test `hr >= 14 && min > 0 && hr < 16` asks for a positive
minute at every hour; "15:01" earns the 10 points.  The same receipt scores "99" at 15:00 and
"109" at 15:01. -/
theorem afternoon_rule_misses_1500 :
    matchTime "15:00" = true ∧ afternoonPoints "15:00" = some 0 ∧
    afternoonPoints "15:01" = some 10 ∧
    calculatePoints convAMD64 { marketReceipt with PurchaseTime := "15:00" } = some "99" ∧
    calculatePoints convAMD64 { marketReceipt with PurchaseTime := "15:01" } = some "109" := by
  refine ⟨by decide, by decide, by decide, by decide!, by decide!⟩

/-- C2 as stated fails: the receipt `nearMaxReceipt` passes validation and scores
"9223372036854775798" at the purchase time "14:00" (and at "16:00"); adding the 10 points of
the afternoon rule exceeds the largest `int`, and at "14:01" and at "15:59" the score is
"-9223372036854775808", which is not 10 points more. -/
theorem afternoon_bonus_wraps_around :
    bindRequired nearMaxReceipt = true ∧ validate nearMaxReceipt = true ∧
    calculatePoints convAMD64 { nearMaxReceipt with PurchaseTime := "14:00" } =
      some "9223372036854775798" ∧
    calculatePoints convAMD64 { nearMaxReceipt with PurchaseTime := "14:01" } =
      some "-9223372036854775808" ∧
    calculatePoints convAMD64 { nearMaxReceipt with PurchaseTime := "15:59" } =
      some "-9223372036854775808" ∧
    calculatePoints convAMD64 { nearMaxReceipt with PurchaseTime := "16:00" } =
      some "9223372036854775798" := by
  refine ⟨by decide, by decide, by decide!, by decide!, by decide!, by decide!⟩

/-- C2, amended (afternoon rule, boundary cases).  With every other field held fixed, the
receipt with purchase time "14:01" and the one with "15:59" get the score of the receipt with
"14:00" plus 10 in the arithmetic of Go's `int` (64 bits, wrap-around), and the receipt with
"16:00" gets the same score as the one with "14:00"; when the score `p` at "14:00" is at most
`maxInt - 10` the scores at "14:01" and at "15:59" are exactly `p + 10`. -/
theorem afternoon_boundary_cases (conv : Float64 → Int) (receipt : Receipt) :
    calculatePointsInt conv { receipt with PurchaseTime := "14:01" } =
      (calculatePointsInt conv { receipt with PurchaseTime := "14:00" }).map (fun p => addInt p 10) ∧
    calculatePointsInt conv { receipt with PurchaseTime := "15:59" } =
      (calculatePointsInt conv { receipt with PurchaseTime := "14:00" }).map (fun p => addInt p 10) ∧
    calculatePoints conv { receipt with PurchaseTime := "16:00" } =
      calculatePoints conv { receipt with PurchaseTime := "14:00" } ∧
    (∀ p : Int, calculatePointsInt conv { receipt with PurchaseTime := "14:00" } = some p →
      p ≤ maxInt - 10 →
      calculatePointsInt conv { receipt with PurchaseTime := "14:01" } = some (p + 10) ∧
      calculatePointsInt conv { receipt with PurchaseTime := "15:59" } = some (p + 10)) := by
  have h1400 := calculatePointsInt_time conv receipt "14:00" 0 (by decide)
  have h1401 := calculatePointsInt_time conv receipt "14:01" 10 (by decide)
  have h1559 := calculatePointsInt_time conv receipt "15:59" 10 (by decide)
  have h1600 := calculatePointsInt_time conv receipt "16:00" 0 (by decide)
  have e1 : calculatePointsInt conv { receipt with PurchaseTime := "14:01" } =
      (calculatePointsInt conv { receipt with PurchaseTime := "14:00" }).map
        (fun p => addInt p 10) := by
    rw [h1401, h1400]
    cases oddDayPoints receipt.PurchaseDate with
    | none => rfl
    | some day => simp only [Option.map_some', addInt_wrapInt, add_zero]
  have e2 : calculatePointsInt conv { receipt with PurchaseTime := "15:59" } =
      (calculatePointsInt conv { receipt with PurchaseTime := "14:00" }).map
        (fun p => addInt p 10) := by
    rw [h1559, h1400]
    cases oddDayPoints receipt.PurchaseDate with
    | none => rfl
    | some day => simp only [Option.map_some', addInt_wrapInt, add_zero]
  refine ⟨e1, e2, ?_, ?_⟩
  · unfold calculatePoints
    rw [h1600, h1400]
  · intro p hp hle
    have hb := calculatePointsInt_bounds hp
    have hadd : addInt p 10 = p + 10 := by
      unfold addInt
      apply wrapInt_of_mem
      · have := hb.1; unfold minInt at *; omega
      · unfold maxInt at *; omega
    rw [e1, e2, hp]
    simp [hadd]

/-- Witness for `afternoon_boundary_cases`: the market receipt scores 99 at "14:00" and 109 at
"14:01" and at "15:59". -/
theorem afternoon_boundary_cases_witness :
    calculatePointsInt convAMD64 { marketReceipt with PurchaseTime := "14:00" } = some 99 ∧
    (99 : Int) ≤ maxInt - 10 ∧
    calculatePointsInt convAMD64 { marketReceipt with PurchaseTime := "14:01" } = some (99 + 10) ∧
    calculatePointsInt convAMD64 { marketReceipt with PurchaseTime := "15:59" } = some (99 + 10) :=
  ⟨by decide!, by decide,
    (afternoon_boundary_cases convAMD64 marketReceipt).2.2.2 99 (by decide!) (by decide)⟩

/-! ## Rule 5: the item descriptions -/

theorem math.Ceil_finite (q : ℚ) : math.Ceil (.finite q) = .finite ((⌈q⌉ : Int) : ℚ) := by
  have h : ⌈q⌉ = -((-q.num) / (q.den : Int)) := by
    rw [← neg_neg q, Int.ceil_neg, Rat.floor_def, neg_neg, Rat.neg_num, Rat.neg_den]
  rw [h]; rfl

theorem math.truncRat_intCast (z : Int) : math.truncRat (z : ℚ) = z := by
  simp [math.truncRat]

theorem float64ToInt_ceil (conv : Float64 → Int) (q : ℚ) (h₁ : minInt ≤ ⌈q⌉) (h₂ : ⌈q⌉ ≤ maxInt) :
    float64ToInt conv (math.Ceil (.finite q)) = ⌈q⌉ := by
  rw [math.Ceil_finite]
  simp [float64ToInt, math.truncRat_intCast, h₁, h₂]

/-- C3 as stated fails, in two ways, both on receipts that pass validation.  The description
"\u00a0" (a no-break space, which the pattern `^\S+$` accepts) is trimmed to the empty
string, of length 0, which `% 3 == 0` accepts: with the price "5.00" the item earns 1 point,
not 0, and the receipt scores "100" against "99" with the description "a".  And the
contribution is computed in `float64`: the price "175921860444160.01" is parsed to the double
175921860444160 and the item ("abc", "175921860444160.01") contributes 35184372088832, whereas
the ceiling of the exact product of the price and 0.2 is 35184372088833. -/
theorem description_rule_departs_from_claim :
    validate { marketReceipt with Items := [⟨"\u00a0", "5.00"⟩] } = true ∧
    len (strings.TrimSpace "\u00a0") = 0 ∧
    (strconv.ParseFloat "5.00").2 = none ∧
    descriptionPoints convAMD64 ⟨"\u00a0", "5.00"⟩ = 1 ∧
    calculatePoints convAMD64 { marketReceipt with Items := [⟨"\u00a0", "5.00"⟩] } =
      some "100" ∧
    calculatePoints convAMD64 { marketReceipt with Items := [⟨"a", "5.00"⟩] } = some "99" ∧
    validate { marketReceipt with Items := [⟨"abc", "175921860444160.01"⟩] } = true ∧
    strconv.readFloat "175921860444160.01".data = some (17592186044416001 / 100) ∧
    strconv.ParseFloat "175921860444160.01" = (.finite 175921860444160, none) ∧
    descriptionPoints convAMD64 ⟨"abc", "175921860444160.01"⟩ = 35184372088832 ∧
    ⌈(17592186044416001 / 100 : ℚ) * (1 / 5)⌉ = 35184372088833 ∧
    calculatePoints convAMD64 { marketReceipt with Items := [⟨"abc", "175921860444160.01"⟩] } =
      some "35184372088931" := by
  refine ⟨by decide, by decide, by decide!, by decide!, by decide!, by decide!, by decide,
    by decide!, by decide!, by decide!, ?_, by decide!⟩
  rw [Int.ceil_eq_iff]; norm_num

/-- C3, amended (description-length rule).  For every receipt and every item of it, the item
contributes `int(math.Ceil(price * 0.2))`, computed in `float64` (`price` is the double that
the price string parses to and the product is rounded to a double), when the byte length of
its trimmed description is a multiple of 3, zero included (so also when the trimmed
description is empty), and 0 otherwise; when the product `price * 0.2` is the finite double `q`
and the integer `⌈q⌉` fits an `int`, the contribution is `⌈q⌉`.  The rule's total is the sum of
the contributions over all items: the returned points are the `int` sum of that total and of
the amounts of the other rules. -/
theorem description_length_rule (conv : Float64 → Int) (receipt : Receipt) :
    calculatePointsInt conv receipt =
      ((oddDayPoints receipt.PurchaseDate).bind fun day =>
        (afternoonPoints receipt.PurchaseTime).map fun afternoon =>
          wrapInt (retailerPoints receipt.Retailer + roundDollarPoints receipt.Total +
            quarterPoints receipt.Total + itemCountPoints receipt.Items +
            (receipt.Items.map (descriptionPoints conv)).sum + day + afternoon)) ∧
    ∀ item : Item,
      ((3 : Int) ∣ len (strings.TrimSpace item.ShortDescription) →
        descriptionPoints conv item = float64ToInt conv
          (math.Ceil (Float64.mul (strconv.ParseFloat item.Price).1 (float64Const 0.2)))) ∧
      (len (strings.TrimSpace item.ShortDescription) = 0 →
        descriptionPoints conv item = float64ToInt conv
          (math.Ceil (Float64.mul (strconv.ParseFloat item.Price).1 (float64Const 0.2)))) ∧
      (¬ (3 : Int) ∣ len (strings.TrimSpace item.ShortDescription) →
        descriptionPoints conv item = 0) ∧
      (∀ q : ℚ, (3 : Int) ∣ len (strings.TrimSpace item.ShortDescription) →
        Float64.mul (strconv.ParseFloat item.Price).1 (float64Const 0.2) = .finite q →
        minInt ≤ ⌈q⌉ → ⌈q⌉ ≤ maxInt → descriptionPoints conv item = ⌈q⌉) := by
  refine ⟨calculatePointsInt_eq conv receipt, fun item => ?_⟩
  have hdvd : Int.tmod (len (strings.TrimSpace item.ShortDescription)) 3 = 0 ↔
      (3 : Int) ∣ len (strings.TrimSpace item.ShortDescription) := by
    have h0 : (0 : Int) ≤ len (strings.TrimSpace item.ShortDescription) := by
      unfold len; exact Int.ofNat_nonneg _
    rw [Int.tmod_eq_emod h0 (by omega)]
    omega
  have hyes : (3 : Int) ∣ len (strings.TrimSpace item.ShortDescription) →
      descriptionPoints conv item = float64ToInt conv
        (math.Ceil (Float64.mul (strconv.ParseFloat item.Price).1 (float64Const 0.2))) := by
    intro h
    unfold descriptionPoints
    rw [if_pos (hdvd.mpr h)]
  refine ⟨hyes, fun h0 => hyes (by rw [h0]; exact dvd_zero _), fun h => ?_, fun q h hq h₁ h₂ => ?_⟩
  · unfold descriptionPoints
    rw [if_neg (fun h' => h (hdvd.mp h'))]
  · rw [hyes h, hq, float64ToInt_ceil conv q h₁ h₂]

/-- Witness for `description_length_rule`: the item "Emils Cheese Pizza" (18 bytes) at "12.25"
contributes `⌈q⌉ = 3` for the double `q` that `12.25 * 0.2` rounds to. -/
theorem description_length_rule_witness :
    (3 : Int) ∣ len (strings.TrimSpace "Emils Cheese Pizza") ∧
    Float64.mul (strconv.ParseFloat "12.25").1 (float64Const 0.2) =
      .finite (2758454771764429 / 1125899906842624) ∧
    minInt ≤ ⌈(2758454771764429 / 1125899906842624 : ℚ)⌉ ∧
    ⌈(2758454771764429 / 1125899906842624 : ℚ)⌉ ≤ maxInt ∧
    descriptionPoints convAMD64 ⟨"Emils Cheese Pizza", "12.25"⟩ =
      ⌈(2758454771764429 / 1125899906842624 : ℚ)⌉ ∧
    ⌈(2758454771764429 / 1125899906842624 : ℚ)⌉ = 3 := by
  have hc : ⌈(2758454771764429 / 1125899906842624 : ℚ)⌉ = 3 := by
    rw [Int.ceil_eq_iff]; norm_num
  have h3 : (3 : Int) ∣ len (strings.TrimSpace "Emils Cheese Pizza") := by decide
  have hq : Float64.mul (strconv.ParseFloat "12.25").1 (float64Const 0.2) =
      .finite (2758454771764429 / 1125899906842624) := by decide!
  have h₁ : minInt ≤ ⌈(2758454771764429 / 1125899906842624 : ℚ)⌉ := by rw [hc]; decide
  have h₂ : ⌈(2758454771764429 / 1125899906842624 : ℚ)⌉ ≤ maxInt := by rw [hc]; decide
  exact ⟨h3, hq, h₁, h₂,
    ((description_length_rule convAMD64 marketReceipt).2
      ⟨"Emils Cheese Pizza", "12.25"⟩).2.2.2 _ h3 hq h₁ h₂, hc⟩

/-! ## Rules 2 and 3: the total -/

/-- C5 (quarter-multiple rule), evaluated where the code departs from it: the total
"562949953421312.20" matches the two-decimal pattern and its fractional digits are 20, not
00, 25, 50 or 75, yet `strconv.ParseFloat` rounds it to the double `2 ^ 49 + 0.25` (doubles
of that size are 0.125 apart), a multiple of 0.25, so the rule adds 25: the receipt scores
"59", against "34" for the total "9.20".  The examples of the claim hold: "10.00" earns
50 + 25 = 75 from rules 2 and 3 and "10.10" earns 0. -/
theorem quarter_rule_misjudges_large_total :
    matchMoney "562949953421312.20" = true ∧
    strconv.ParseFloat "562949953421312.20" = (.finite (562949953421312 + 1 / 4), none) ∧
    quarterPoints "562949953421312.20" = 25 ∧
    calculatePoints convAMD64 { marketReceipt with Total := "562949953421312.20" } = some "59" ∧
    calculatePoints convAMD64 { marketReceipt with Total := "9.20" } = some "34" ∧
    roundDollarPoints "10.00" + quarterPoints "10.00" = 75 ∧
    roundDollarPoints "10.10" + quarterPoints "10.10" = 0 := by
  refine ⟨by decide, by decide!, by decide!, by decide!, by decide!, by decide!, by decide!⟩

/-- C6 (round-dollar rule), evaluated where the code departs from it: the total
"140737488355328.01" matches the two-decimal pattern and its fractional digits are 01, yet
`strconv.ParseFloat` rounds it to the double `2 ^ 47` (doubles of that size are 0.03125
apart), a whole number, so the rule adds 50 (and rule 3 adds 25): the receipt scores "109",
against "34" for the total "9.01".  The examples of the claim hold: "10.00" contributes 50 to
rule 2 and "10.05" contributes 0. -/
theorem round_dollar_rule_misjudges_large_total :
    matchMoney "140737488355328.01" = true ∧
    strconv.ParseFloat "140737488355328.01" = (.finite 140737488355328, none) ∧
    roundDollarPoints "140737488355328.01" = 50 ∧
    calculatePoints convAMD64 { marketReceipt with Total := "140737488355328.01" } = some "109" ∧
    calculatePoints convAMD64 { marketReceipt with Total := "9.01" } = some "34" ∧
    roundDollarPoints "10.00" = 50 ∧ roundDollarPoints "10.05" = 0 := by
  refine ⟨by decide, by decide!, by decide!, by decide!, by decide!, by decide!, by decide!⟩

/-! ## Rule 6: the day of purchase -/

theorem isDigit_cases {c : Char} (h : c.isDigit = true) :
    c = '0' ∨ c = '1' ∨ c = '2' ∨ c = '3' ∨ c = '4' ∨ c = '5' ∨ c = '6' ∨ c = '7' ∨ c = '8' ∨
      c = '9' := by
  have hb : 48 ≤ c.toNat ∧ c.toNat ≤ 57 := by
    simp only [Char.isDigit, Bool.and_eq_true, decide_eq_true_eq, UInt32.le_def] at h
    exact h
  have hc : c = Char.ofNat c.toNat := (Char.ofNat_toNat c).symm
  obtain ⟨h1, h2⟩ := hb
  generalize c.toNat = n at hc h1 h2
  subst hc
  interval_cases n <;> decide

theorem range_cases {c lo hi : Char} (h₁ : (decide (lo ≤ c)) = true) (h₂ : (decide (c ≤ hi)) = true) :
    lo.toNat ≤ c.toNat ∧ c.toNat ≤ hi.toNat := by
  simp only [decide_eq_true_eq, Char.le_def, UInt32.le_def] at h₁ h₂
  exact ⟨h₁, h₂⟩

theorem ne_of_pred (p : Char → Bool) {c x : Char} (h : p c = true) (hx : p x = false) :
    c ≠ x := by
  intro e; subst e; rw [h] at hx; cases hx

theorem isDigit_of_range {c : Char} (h₁ : '0' ≤ c) (h₂ : c ≤ '9') : c.isDigit = true := by
  simp only [Char.le_def, UInt32.le_def] at h₁ h₂
  simp only [Char.isDigit, Bool.and_eq_true, decide_eq_true_eq, UInt32.le_def]
  exact ⟨h₁, h₂⟩

theorem mem_digits {c : Char} (h : c.isDigit = true) :
    c ∈ ['0', '1', '2', '3', '4', '5', '6', '7', '8', '9'] := by
  rcases isDigit_cases h with h | h | h | h | h | h | h | h | h | h <;> subst h <;> decide

theorem matchDate_shape {s : String} (h : matchDate s = true) :
    ∃ y1 y2 y3 y4 m1 m2 d1 d2 : Char,
      s = String.mk [y1, y2, y3, y4, '-', m1, m2, '-', d1, d2] ∧
      y1 ≠ '-' ∧ y2 ≠ '-' ∧ y3 ≠ '-' ∧ y4 ≠ '-' ∧ m1 ≠ '-' ∧ m2 ≠ '-' ∧
      d1 ∈ ['0', '1', '2', '3'] ∧ d2 ∈ ['0', '1', '2', '3', '4', '5', '6', '7', '8', '9'] ∧
      ((d1 == '0' && decide ('1' ≤ d2) && decide (d2 ≤ '9')) || ((d1 == '1' || d1 == '2') && d2.isDigit) ||
        (d1 == '3' && (d2 == '0' || d2 == '1'))) = true := by
  unfold matchDate at h
  split at h
  · rename_i y1 y2 y3 y4 s1 m1 m2 s2 d1 d2 heq
    simp only [Bool.and_eq_true, beq_iff_eq] at h
    obtain ⟨⟨⟨⟨⟨⟨⟨hy1, hy2⟩, hy3⟩, hy4⟩, hs1⟩, hm⟩, hs2⟩, hd⟩ := h
    subst hs1 hs2
    have hdash : Char.isDigit '-' = false := by decide
    refine ⟨y1, y2, y3, y4, m1, m2, d1, d2, ?_, ne_of_pred _ hy1 hdash, ne_of_pred _ hy2 hdash,
      ne_of_pred _ hy3 hdash, ne_of_pred _ hy4 hdash, ?_, ?_, ?_, ?_, hd⟩
    · cases s; simp only at heq; rw [heq]
    · refine ne_of_pred (fun c => c == '0' || c == '1') ?_ (by decide)
      simp only [Bool.or_eq_true, Bool.and_eq_true, beq_iff_eq] at hm ⊢
      tauto
    · refine ne_of_pred (fun c => (decide ('1' ≤ c) && decide (c ≤ '9')) ||
        (c == '0' || c == '1' || c == '2')) ?_ (by decide)
      simp only [Bool.or_eq_true, Bool.and_eq_true, beq_iff_eq] at hm ⊢
      tauto
    · simp only [Bool.or_eq_true, Bool.and_eq_true, beq_iff_eq] at hd
      simp only [List.mem_cons, List.mem_singleton]
      tauto
    · simp only [Bool.or_eq_true, Bool.and_eq_true, beq_iff_eq, decide_eq_true_eq] at hd
      rcases hd with (⟨⟨_, h1⟩, h2⟩ | ⟨_, h⟩) | ⟨_, h | h⟩
      · exact mem_digits (isDigit_of_range (le_trans (by decide) h1) h2)
      · exact mem_digits h
      · subst h; decide
      · subst h; decide
  · exact absurd h (by simp)

theorem splitLoop_date (y1 y2 y3 y4 m1 m2 d1 d2 : Char) (hy1 : y1 ≠ '-') (hy2 : y2 ≠ '-')
    (hy3 : y3 ≠ '-') (hy4 : y4 ≠ '-') (hm1 : m1 ≠ '-') (hm2 : m2 ≠ '-') (hd1 : d1 ≠ '-')
    (hd2 : d2 ≠ '-') :
    strings.Split (String.mk [y1, y2, y3, y4, '-', m1, m2, '-', d1, d2]) '-' =
      [String.mk [y1, y2, y3, y4], String.mk [m1, m2], String.mk [d1, d2]] := by
  simp [strings.Split, strings.splitLoop, hy1, hy2, hy3, hy4, hm1, hm2, hd1, hd2]

theorem parseInt_day {d1 d2 : Char} (h1 : d1 ∈ ['0', '1', '2', '3'])
    (h2 : d2 ∈ ['0', '1', '2', '3', '4', '5', '6', '7', '8', '9'])
    (hc : ((d1 == '0' && decide ('1' ≤ d2) && decide (d2 ≤ '9')) ||
      ((d1 == '1' || d1 == '2') && d2.isDigit) || (d1 == '3' && (d2 == '0' || d2 == '1'))) = true) :
    (strconv.ParseInt (String.mk [d1, d2]) 32).2 = none ∧
    1 ≤ (strconv.ParseInt (String.mk [d1, d2]) 32).1 ∧
    (strconv.ParseInt (String.mk [d1, d2]) 32).1 ≤ 31 := by
  fin_cases h1 <;> fin_cases h2 <;> revert hc <;> decide

theorem oddDayPoints_of_matchDate {s : String} (h : matchDate s = true) :
    ∃ dayStr : String,
      (strings.Split s '-').getLast? = some dayStr ∧
      (strconv.ParseInt dayStr 32).2 = none ∧
      1 ≤ (strconv.ParseInt dayStr 32).1 ∧ (strconv.ParseInt dayStr 32).1 ≤ 31 ∧
      oddDayPoints s = some (if (strconv.ParseInt dayStr 32).1 % 2 = 1 then 6 else 0) := by
  obtain ⟨y1, y2, y3, y4, m1, m2, d1, d2, hs, hy1, hy2, hy3, hy4, hm1, hm2, h1, h2, hc⟩ :=
    matchDate_shape h
  have hd1 : d1 ≠ '-' := by intro e; subst e; revert h1; decide
  have hd2 : d2 ≠ '-' := by intro e; subst e; revert h2; decide
  have hsplit := splitLoop_date y1 y2 y3 y4 m1 m2 d1 d2 hy1 hy2 hy3 hy4 hm1 hm2 hd1 hd2
  rw [← hs] at hsplit
  obtain ⟨herr, hlo, hhi⟩ := parseInt_day h1 h2 hc
  refine ⟨String.mk [d1, d2], by rw [hsplit]; rfl, herr, hlo, hhi, ?_⟩
  unfold oddDayPoints
  rw [hsplit]
  simp only [List.getElem?_cons_succ, List.getElem?_cons_zero, Option.map_some',
    Option.some.injEq]
  rw [Int.tmod_eq_emod (by omega) (by omega)]
  split_ifs <;> omega

/-- C8 (odd-day rule).  For every receipt whose purchase date matches the validated
`YYYY-MM-DD` pattern, the last `-`-delimited segment of the date parses without error to a day
from 1 to 31, and `calculatePoints` adds 6 for this rule exactly when that day is odd and 0
when it is even: the returned points are the `int` sum of this amount and of the amounts of
the other rules. -/
theorem odd_day_rule (conv : Float64 → Int) (receipt : Receipt)
    (h : matchDate receipt.PurchaseDate = true) :
    ∃ dayStr : String,
      (strings.Split receipt.PurchaseDate '-').getLast? = some dayStr ∧
      (strconv.ParseInt dayStr 32).2 = none ∧
      1 ≤ (strconv.ParseInt dayStr 32).1 ∧ (strconv.ParseInt dayStr 32).1 ≤ 31 ∧
      oddDayPoints receipt.PurchaseDate =
        some (if (strconv.ParseInt dayStr 32).1 % 2 = 1 then 6 else 0) ∧
      calculatePointsInt conv receipt =
        (afternoonPoints receipt.PurchaseTime).map fun afternoon =>
          wrapInt (retailerPoints receipt.Retailer + roundDollarPoints receipt.Total +
            quarterPoints receipt.Total + itemCountPoints receipt.Items +
            (receipt.Items.map (descriptionPoints conv)).sum +
            (if (strconv.ParseInt dayStr 32).1 % 2 = 1 then 6 else 0) + afternoon) := by
  obtain ⟨dayStr, hlast, herr, hlo, hhi, hodd⟩ := oddDayPoints_of_matchDate h
  refine ⟨dayStr, hlast, herr, hlo, hhi, hodd, ?_⟩
  rw [calculatePointsInt_eq, hodd]
  rfl

/-- Witness for `odd_day_rule`: the classic receipt, bought on "2022-01-01". -/
theorem odd_day_rule_witness :
    matchDate classicReceipt.PurchaseDate = true ∧
    ∃ dayStr : String,
      (strings.Split classicReceipt.PurchaseDate '-').getLast? = some dayStr ∧
      (strconv.ParseInt dayStr 32).2 = none ∧
      1 ≤ (strconv.ParseInt dayStr 32).1 ∧ (strconv.ParseInt dayStr 32).1 ≤ 31 ∧
      oddDayPoints classicReceipt.PurchaseDate =
        some (if (strconv.ParseInt dayStr 32).1 % 2 = 1 then 6 else 0) ∧
      calculatePointsInt convAMD64 classicReceipt =
        (afternoonPoints classicReceipt.PurchaseTime).map fun afternoon =>
          wrapInt (retailerPoints classicReceipt.Retailer +
            roundDollarPoints classicReceipt.Total +
            quarterPoints classicReceipt.Total + itemCountPoints classicReceipt.Items +
            (classicReceipt.Items.map (descriptionPoints convAMD64)).sum +
            (if (strconv.ParseInt dayStr 32).1 % 2 = 1 then 6 else 0) + afternoon) :=
  ⟨by decide, odd_day_rule convAMD64 classicReceipt (by decide)⟩

/-! ## Submission and lookup -/

theorem length_splitLoop (sep : Char) (l acc : List Char) :
    (strings.splitLoop sep l acc).length = l.count sep + 1 := by
  induction l generalizing acc with
  | nil => simp [strings.splitLoop]
  | cons c cs ih =>
    unfold strings.splitLoop
    split_ifs with h
    · subst h; simp [ih]
    · have : (c == sep) = false := by simpa using h
      simp [ih, List.count_cons, this]

theorem afternoonPoints_of_matchTime {s : String} (h : matchTime s = true) :
    ∃ afternoon : Int, afternoonPoints s = some afternoon := by
  have hmem : 1 ≤ s.data.count ':' := by
    unfold matchTime at h
    split at h
    · rename_i heq
      simp only [Bool.and_eq_true, beq_iff_eq] at h
      rw [heq, h.1.1.1.2]; simp
    · rename_i heq
      simp only [Bool.and_eq_true, beq_iff_eq] at h
      rw [heq, h.1.1.1.2]; simp only [List.count_cons, beq_self_eq_true, if_true]; omega
    · exact absurd h (by simp)
  have hlen : 2 ≤ (strings.Split s ':').length := by
    unfold strings.Split; rw [length_splitLoop]; omega
  unfold afternoonPoints
  match hl : strings.Split s ':' with
  | [] => rw [hl] at hlen; simp at hlen
  | [_] => rw [hl] at hlen; simp at hlen
  | a :: b :: rest => simp

theorem calculatePoints_of_validate (conv : Float64 → Int) {receipt : Receipt}
    (h : validate receipt = true) : ∃ points : String, calculatePoints conv receipt = some points := by
  unfold validate at h
  simp only [Bool.and_eq_true] at h
  obtain ⟨dayStr, _, _, _, _, hodd⟩ := oddDayPoints_of_matchDate h.1.1.1.1
  obtain ⟨afternoon, ha⟩ := afternoonPoints_of_matchTime h.1.1.1.2
  unfold calculatePoints
  rw [calculatePointsInt_eq, hodd, ha]
  exact ⟨_, rfl⟩

theorem getPoints_append_of_fresh (receipts rest : List Receipt) (id : String)
    (h : ∀ r ∈ receipts, r.ID ≠ id) : getPoints (receipts ++ rest) id = getPoints rest id := by
  induction receipts with
  | nil => rfl
  | cons r rs ih =>
    have hr : r.ID ≠ id := h r (List.mem_cons_self _ _)
    simp only [List.cons_append, getPoints, if_neg hr]
    exact ih (fun x hx => h x (List.mem_cons_of_mem _ hx))

theorem calculatePoints_ID (conv : Float64 → Int) (receipt : Receipt) (id : String) :
    calculatePoints conv { receipt with ID := id } = calculatePoints conv receipt := rfl

/-- C10 (submit/lookup round trip).  For every store state and every receipt that passes
validation (the binding checks and `validator.Validate`), if the identifier assigned to the
submission is carried by no receipt already in the store, then `calculatePoints` returns a
score for the receipt, the submission answers with that identifier, and `getPoints` of the
identifier on the resulting store succeeds and returns exactly that score. -/
theorem submit_then_lookup_returns_points (conv : Float64 → Int) (receipts : List Receipt)
    (receipt : Receipt) (uuid : String) (hb : bindRequired receipt = true)
    (hv : validate receipt = true) (hfresh : ∀ r ∈ receipts, r.ID ≠ uuid) :
    ∃ points : String,
      calculatePoints conv receipt = some points ∧
      (processReceipt conv receipts (some receipt) uuid).2 = .okID uuid ∧
      getPoints (processReceipt conv receipts (some receipt) uuid).1 uuid = .okPoints points := by
  obtain ⟨points, hp⟩ := calculatePoints_of_validate conv hv
  have hp' := (calculatePoints_ID conv receipt uuid).trans hp
  refine ⟨points, hp, ?_, ?_⟩
  · simp only [processReceipt, hb, hv, not_true_eq_false, if_false, hp']
  · simp only [processReceipt, hb, hv, not_true_eq_false, if_false, hp']
    rw [getPoints_append_of_fresh _ _ _ hfresh]
    simp [getPoints]

/-- Witness for `submit_then_lookup_returns_points`: the market receipt submitted to the empty
store. -/
theorem submit_then_lookup_returns_points_witness :
    bindRequired marketReceipt = true ∧ validate marketReceipt = true ∧
    (∀ r ∈ ([] : List Receipt), r.ID ≠ "7fb1377b-b223-49d9-a31a-5a02701dd310") ∧
    ∃ points : String,
      calculatePoints convAMD64 marketReceipt = some points ∧
      (processReceipt convAMD64 [] (some marketReceipt)
        "7fb1377b-b223-49d9-a31a-5a02701dd310").2 =
          .okID "7fb1377b-b223-49d9-a31a-5a02701dd310" ∧
      getPoints (processReceipt convAMD64 [] (some marketReceipt)
        "7fb1377b-b223-49d9-a31a-5a02701dd310").1 "7fb1377b-b223-49d9-a31a-5a02701dd310" =
          .okPoints points :=
  ⟨by decide, by decide, fun _ h => absurd h (List.not_mem_nil _),
    submit_then_lookup_returns_points convAMD64 [] marketReceipt
      "7fb1377b-b223-49d9-a31a-5a02701dd310" (by decide) (by decide)
      (fun _ h => absurd h (List.not_mem_nil _))⟩

/-! ## The classic example -/

/-- C9 as stated fails: `calculatePoints` of the classic example receipt is "20", not "28",
and its submission does not succeed: the item description "Mountain Dew 12PK" holds spaces,
which the pattern `^\S+$` rejects, so `processReceipt` answers with a client error, stores
nothing, and a lookup finds nothing. -/
theorem classic_example_is_not_28 :
    calculatePoints convAMD64 classicReceipt = some "20" ∧
    calculatePoints convAMD64 classicReceipt ≠ some "28" ∧
    matchNoSpace "Mountain Dew 12PK" = false ∧
    processReceipt convAMD64 [] (some classicReceipt) "7fb1377b-b223-49d9-a31a-5a02701dd310" =
      ([], .badRequest) ∧
    getPoints (processReceipt convAMD64 [] (some classicReceipt)
      "7fb1377b-b223-49d9-a31a-5a02701dd310").1 "7fb1377b-b223-49d9-a31a-5a02701dd310" =
        .notFound := by
  refine ⟨by decide!, by decide!, by decide, by decide, by decide⟩

/-- C9, amended (end-to-end example).  For the classic example receipt, `calculatePoints` is
"20" (retailer 6, one pair of items 5, description of "Emils Cheese Pizza" 3, odd day 6),
whatever the conversion `conv`; and its submission is rejected with a client error and leaves
the store unchanged, in every store state and for every generated identifier, because its item
descriptions contain spaces. -/
theorem classic_example_scores_20_and_is_rejected (conv : Float64 → Int)
    (receipts : List Receipt) (uuid : String) :
    calculatePoints conv classicReceipt = some "20" ∧
    classicReceipt.Items.all (fun item => matchNoSpace item.ShortDescription) = false ∧
    processReceipt conv receipts (some classicReceipt) uuid = (receipts, .badRequest) := by
  refine ⟨?_, by decide, ?_⟩
  · have h1 : oddDayPoints classicReceipt.PurchaseDate = some 6 := by decide
    have h2 : afternoonPoints classicReceipt.PurchaseTime = some 0 := by decide
    have h3 : retailerPoints classicReceipt.Retailer = 6 := by decide
    have h4 : roundDollarPoints classicReceipt.Total = 0 := by decide!
    have h5 : quarterPoints classicReceipt.Total = 0 := by decide!
    have h6 : itemCountPoints classicReceipt.Items = 5 := by decide
    have hq : Float64.mul (strconv.ParseFloat "12.25").1 (float64Const 0.2) =
        .finite (2758454771764429 / 1125899906842624) := by decide!
    have hc : ⌈(2758454771764429 / 1125899906842624 : ℚ)⌉ = 3 := by
      rw [Int.ceil_eq_iff]; norm_num
    have h7 : (classicReceipt.Items.map (descriptionPoints conv)).sum = 3 := by
      have e1 : descriptionPoints conv ⟨"Mountain Dew 12PK", "6.49"⟩ = 0 := by
        unfold descriptionPoints; rw [if_neg (by decide)]
      have e2 : descriptionPoints conv ⟨"Emils Cheese Pizza", "12.25"⟩ = 3 := by
        unfold descriptionPoints
        rw [if_pos (by decide), hq, float64ToInt_ceil conv _ (by rw [hc]; decide)
          (by rw [hc]; decide), hc]
      simp only [classicReceipt, List.map_cons, List.map_nil, List.sum_cons, List.sum_nil, e1, e2]
      rfl
    unfold calculatePoints
    rw [calculatePointsInt_eq, h1, h2, h3, h4, h5, h6, h7]
    decide
  · have hb : bindRequired classicReceipt = true := by decide
    have hv : validate classicReceipt = false := by decide
    simp [processReceipt, hb, hv]

/-! ## The store -/

theorem calculatePoints_Points (conv : Float64 → Int) (receipt : Receipt) (points : String) :
    calculatePoints conv { receipt with Points := points } = calculatePoints conv receipt := rfl

theorem processReceipt_invariant (conv : Float64 → Int) (receipts : List Receipt)
    (body : Option Receipt) (uuid : String) (huuid : uuid ≠ "")
    (h : ∀ r ∈ receipts, r.ID ≠ "" ∧ calculatePoints conv r = some r.Points) :
    ∀ r ∈ (processReceipt conv receipts body uuid).1,
      r.ID ≠ "" ∧ calculatePoints conv r = some r.Points := by
  unfold processReceipt
  cases body with
  | none => exact h
  | some receipt =>
    simp only []
    split_ifs with hb hv
    · split
      · exact h
      · rename_i points hp
        intro r hr
        simp only [List.mem_append, List.mem_singleton] at hr
        rcases hr with hr | hr
        · exact h r hr
        · subst hr
          exact ⟨huuid, (calculatePoints_Points conv _ points).trans hp⟩
    · exact h
    · exact h

theorem foldl_handle_invariant (conv : Float64 → Int) (requests : List Request)
    (receipts : List Receipt)
    (huuid : ∀ body uuid, Request.submit body uuid ∈ requests → uuid ≠ "")
    (h : ∀ r ∈ receipts, r.ID ≠ "" ∧ calculatePoints conv r = some r.Points) :
    ∀ r ∈ requests.foldl (fun receipts request => (handle conv receipts request).1) receipts,
      r.ID ≠ "" ∧ calculatePoints conv r = some r.Points := by
  induction requests generalizing receipts with
  | nil => exact h
  | cons request rest ih =>
    simp only [List.foldl_cons]
    apply ih
    · intro body uuid hm
      exact huuid body uuid (List.mem_cons_of_mem _ hm)
    · cases request with
      | submit body uuid =>
        exact processReceipt_invariant conv receipts body uuid
          (huuid body uuid (List.mem_cons_self _ _)) h
      | lookup id => exact h

/-- C11 (store invariant).  In every store state reached from the empty store by a sequence of
submissions (accepted or rejected) and lookups, when the identifier generator returned a
non-empty string for every submission, every stored receipt has a non-empty id and its points
field is `calculatePoints` of that stored receipt's own field values. -/
theorem store_invariant (conv : Float64 → Int) (requests : List Request)
    (huuid : ∀ body uuid, Request.submit body uuid ∈ requests → uuid ≠ "") :
    ∀ r ∈ storeAfter conv requests, r.ID ≠ "" ∧ calculatePoints conv r = some r.Points :=
  foldl_handle_invariant conv requests [] huuid (fun _ h => absurd h (List.not_mem_nil _))

/-- Witness for `store_invariant`: the example sequence of requests, whose submissions carry
non-empty identifiers. -/
theorem store_invariant_witness :
    (∀ body uuid, Request.submit body uuid ∈ exampleRequests → uuid ≠ "") ∧
    ∀ r ∈ storeAfter convAMD64 exampleRequests,
      r.ID ≠ "" ∧ calculatePoints convAMD64 r = some r.Points := by
  have h : ∀ body uuid, Request.submit body uuid ∈ exampleRequests → uuid ≠ "" := by
    intro body uuid hm
    simp only [exampleRequests, List.mem_cons, Request.submit.injEq, List.mem_singleton,
      false_or, or_false, List.not_mem_nil, reduceCtorEq] at hm
    rcases hm with ⟨_, hu⟩ | ⟨_, hu⟩ | ⟨_, hu⟩ <;> rw [hu] <;> decide
  exact ⟨h, store_invariant convAMD64 exampleRequests h⟩

/-- C12 (validation of items).  For every store state and every generated identifier,
submitting a receipt whose item list is empty (an absent `items` decodes to the empty list too)
is answered with the client error, not with an id, and leaves the store unchanged: the receipt
is not scored as a receipt of 0 items. -/
theorem empty_items_rejected (conv : Float64 → Int) (receipts : List Receipt)
    (receipt : Receipt) (uuid : String) (h : receipt.Items = []) :
    validate receipt = false ∧
    processReceipt conv receipts (some receipt) uuid = (receipts, .badRequest) := by
  have hv : validate receipt = false := by
    unfold validate
    rw [h]
    simp
  refine ⟨hv, ?_⟩
  unfold processReceipt
  simp [hv]

/-- Witness for `empty_items_rejected`: the market receipt without its items. -/
theorem empty_items_rejected_witness :
    ({ marketReceipt with Items := [] } : Receipt).Items = [] ∧
    validate { marketReceipt with Items := [] } = false ∧
    processReceipt convAMD64 [marketReceipt] (some { marketReceipt with Items := [] })
      "7fb1377b-b223-49d9-a31a-5a02701dd310" = ([marketReceipt], .badRequest) :=
  ⟨rfl, empty_items_rejected convAMD64 [marketReceipt] { marketReceipt with Items := [] }
    "7fb1377b-b223-49d9-a31a-5a02701dd310" rfl⟩

/-- C13 (not found).  For every store state and every id, `getPoints` answers not-found if and
only if no receipt in the store has that id, and otherwise answers with the points of a stored
receipt that has it; on the empty store it answers not-found for every id. -/
theorem getPoints_notFound_iff (receipts : List Receipt) (id : String) :
    (getPoints receipts id = .notFound ↔ ∀ r ∈ receipts, r.ID ≠ id) ∧
    (getPoints receipts id = .notFound ∨
      ∃ r ∈ receipts, r.ID = id ∧ getPoints receipts id = .okPoints r.Points) ∧
    getPoints [] id = .notFound := by
  refine ⟨?_, ?_, rfl⟩
  · induction receipts with
    | nil => simp [getPoints]
    | cons r rs ih =>
      unfold getPoints
      by_cases h : r.ID = id
      · simp [h]
      · simp [h, ih]
  · induction receipts with
    | nil => left; rfl
    | cons r rs ih =>
      unfold getPoints
      by_cases h : r.ID = id
      · right
        exact ⟨r, List.mem_cons_self _ _, h, by simp [h]⟩
      · rw [if_neg h]
        rcases ih with ih | ⟨x, hx, hid, hp⟩
        · left; exact ih
        · right; exact ⟨x, List.mem_cons_of_mem _ hx, hid, hp⟩

/-- C14 (client-supplied id and points are ignored).  Two receipts that agree on retailer,
purchase date, purchase time, total and items, whatever their `ID` and `Points` fields, get
the same score from `calculatePoints`, and for the same store and the same generated
identifier their submissions give the same response and the same store: the stored receipts
are identical, with the generated identifier as id and the calculated score as points. -/
theorem client_id_and_points_ignored (conv : Float64 → Int) (receipts : List Receipt)
    (r₁ r₂ : Receipt) (uuid : String) (hR : r₁.Retailer = r₂.Retailer)
    (hD : r₁.PurchaseDate = r₂.PurchaseDate) (hT : r₁.PurchaseTime = r₂.PurchaseTime)
    (hTot : r₁.Total = r₂.Total) (hI : r₁.Items = r₂.Items) :
    calculatePoints conv r₁ = calculatePoints conv r₂ ∧
    processReceipt conv receipts (some r₁) uuid = processReceipt conv receipts (some r₂) uuid ∧
    (∀ points, calculatePoints conv r₁ = some points →
      bindRequired r₁ = true → validate r₁ = true →
      (processReceipt conv receipts (some r₁) uuid).1 =
        receipts ++ [{ r₁ with ID := uuid, Points := points }]) := by
  obtain ⟨id₁, R₁, D₁, T₁, Tot₁, I₁, P₁⟩ := r₁
  obtain ⟨id₂, R₂, D₂, T₂, Tot₂, I₂, P₂⟩ := r₂
  simp only at hR hD hT hTot hI
  subst hR hD hT hTot hI
  refine ⟨rfl, rfl, ?_⟩
  intro points hp hb hv
  have hp' : calculatePoints conv ⟨uuid, R₁, D₁, T₁, Tot₁, I₁, P₁⟩ = some points := hp
  simp only [processReceipt, hb, hv, not_true_eq_false, if_false, hp']

/-- Witness for `client_id_and_points_ignored`: the market receipt, and the same receipt sent
with an id and points of the client's choosing. -/
theorem client_id_and_points_ignored_witness :
    calculatePoints convAMD64 marketReceipt =
      calculatePoints convAMD64 { marketReceipt with ID := "mine", Points := "1000000" } ∧
    processReceipt convAMD64 [] (some marketReceipt) "7fb1377b-b223-49d9-a31a-5a02701dd310" =
      processReceipt convAMD64 []
        (some { marketReceipt with ID := "mine", Points := "1000000" })
        "7fb1377b-b223-49d9-a31a-5a02701dd310" ∧
    (processReceipt convAMD64 [] (some marketReceipt) "7fb1377b-b223-49d9-a31a-5a02701dd310").1 =
      [] ++ [{ marketReceipt with ID := "7fb1377b-b223-49d9-a31a-5a02701dd310", Points := "109" }] :=
  let h := client_id_and_points_ignored convAMD64 [] marketReceipt
    { marketReceipt with ID := "mine", Points := "1000000" }
    "7fb1377b-b223-49d9-a31a-5a02701dd310" rfl rfl rfl rfl rfl
  ⟨h.1, h.2.1, h.2.2 "109" (by decide!) (by decide) (by decide)⟩

/-! ## Stored receipts stay -/

theorem getPoints_append_of_found (receipts rest : List Receipt) (id points : String)
    (h : getPoints receipts id = .okPoints points) :
    getPoints (receipts ++ rest) id = .okPoints points := by
  induction receipts with
  | nil => simp [getPoints] at h
  | cons r rs ih =>
    simp only [List.cons_append, getPoints] at h ⊢
    by_cases hr : r.ID = id
    · rw [if_pos hr] at h ⊢; exact h
    · rw [if_neg hr] at h ⊢; exact ih h

theorem processReceipt_append (conv : Float64 → Int) (receipts : List Receipt)
    (body : Option Receipt) (uuid : String) :
    ∃ added : List Receipt,
      (processReceipt conv receipts body uuid).1 = receipts ++ added ∧ added.length ≤ 1 := by
  unfold processReceipt
  cases body with
  | none => exact ⟨[], by simp⟩
  | some receipt =>
    simp only []
    split_ifs
    · split
      · exact ⟨[], by simp⟩
      · exact ⟨_, rfl, by simp⟩
    · exact ⟨[], by simp⟩
    · exact ⟨[], by simp⟩

/-- C15 (stored receipts are immutable and never deleted).  For every store state, every
submission - accepted or rejected, and whatever identifier it is assigned, even one already
present - leaves the stored receipts unchanged and in the same order as a prefix of the new
store, to which it appends at most one receipt; so for every id that a lookup found before the
submission, the lookup returns the same points afterwards.  A lookup does not change the
store. -/
theorem stored_receipts_kept (conv : Float64 → Int) (receipts : List Receipt)
    (body : Option Receipt) (uuid : String) :
    (∃ added : List Receipt,
      (processReceipt conv receipts body uuid).1 = receipts ++ added ∧ added.length ≤ 1) ∧
    (∀ id points, getPoints receipts id = .okPoints points →
      getPoints (processReceipt conv receipts body uuid).1 id = .okPoints points) ∧
    (∀ id, (handle conv receipts (.lookup id)).1 = receipts) := by
  refine ⟨processReceipt_append conv receipts body uuid, ?_, fun _ => rfl⟩
  intro id points h
  obtain ⟨added, hadd, _⟩ := processReceipt_append conv receipts body uuid
  rw [hadd]
  exact getPoints_append_of_found receipts added id points h

/-- Witness for `stored_receipts_kept`: after the market receipt was stored with 109 points, a
second submission that is assigned the same identifier does not change what the lookup of
that identifier returns. -/
theorem stored_receipts_kept_witness :
    getPoints [{ marketReceipt with ID := "7fb1377b", Points := "109" }] "7fb1377b" =
      .okPoints "109" ∧
    getPoints (processReceipt convAMD64 [{ marketReceipt with ID := "7fb1377b", Points := "109" }]
      (some { marketReceipt with Total := "9.01" }) "7fb1377b").1 "7fb1377b" = .okPoints "109" :=
  ⟨by decide,
    (stored_receipts_kept convAMD64 [{ marketReceipt with ID := "7fb1377b", Points := "109" }]
      (some { marketReceipt with Total := "9.01" }) "7fb1377b").2.1 "7fb1377b" "109" (by decide)⟩

/-! ## `calculatePoints` returns on validated input -/

theorem length_split_date {s : String} (h : matchDate s = true) :
    (strings.Split s '-').length = 3 := by
  obtain ⟨y1, y2, y3, y4, m1, m2, d1, d2, hs, hy1, hy2, hy3, hy4, hm1, hm2, h1, h2, _⟩ :=
    matchDate_shape h
  have hd1 : d1 ≠ '-' := by intro e; subst e; revert h1; decide
  have hd2 : d2 ≠ '-' := by intro e; subst e; revert h2; decide
  rw [hs, splitLoop_date y1 y2 y3 y4 m1 m2 d1 d2 hy1 hy2 hy3 hy4 hm1 hm2 hd1 hd2]
  rfl

theorem length_split_time {s : String} (h : matchTime s = true) :
    2 ≤ (strings.Split s ':').length := by
  have hmem : 1 ≤ s.data.count ':' := by
    unfold matchTime at h
    split at h
    · rename_i heq
      simp only [Bool.and_eq_true, beq_iff_eq] at h
      rw [heq, h.1.1.1.2]; simp
    · rename_i heq
      simp only [Bool.and_eq_true, beq_iff_eq] at h
      rw [heq, h.1.1.1.2]; simp only [List.count_cons, beq_self_eq_true, if_true]; omega
    · exact absurd h (by simp)
  unfold strings.Split; rw [length_splitLoop]; omega

/-- C18 (`calculatePoints` is total on validated input).  For every receipt whose purchase date
matches the validated `YYYY-MM-DD` pattern and whose purchase time matches the validated
`HH:MM` pattern, splitting the date on `-` yields at least 3 segments (exactly 3) and splitting
the time on `:` yields at least 2, so `dateSplit[2]`, `timeSplit[0]` and `timeSplit[1]` are in
bounds, and `calculatePoints` returns a score. -/
theorem calculatePoints_total_on_validated (conv : Float64 → Int) (receipt : Receipt)
    (hd : matchDate receipt.PurchaseDate = true) (ht : matchTime receipt.PurchaseTime = true) :
    3 ≤ (strings.Split receipt.PurchaseDate '-').length ∧
    2 ≤ (strings.Split receipt.PurchaseTime ':').length ∧
    ((strings.Split receipt.PurchaseDate '-')[2]?).isSome = true ∧
    ((strings.Split receipt.PurchaseTime ':')[0]?).isSome = true ∧
    ((strings.Split receipt.PurchaseTime ':')[1]?).isSome = true ∧
    ∃ points : String, calculatePoints conv receipt = some points := by
  have h3 := length_split_date hd
  have h2 := length_split_time ht
  refine ⟨by omega, h2, ?_, ?_, ?_, ?_⟩
  · rw [List.getElem?_eq_getElem (by omega)]; rfl
  · rw [List.getElem?_eq_getElem (by omega)]; rfl
  · rw [List.getElem?_eq_getElem (by omega)]; rfl
  · obtain ⟨dayStr, _, _, _, _, hodd⟩ := oddDayPoints_of_matchDate hd
    obtain ⟨afternoon, ha⟩ := afternoonPoints_of_matchTime ht
    unfold calculatePoints
    rw [calculatePointsInt_eq, hodd, ha]
    exact ⟨_, rfl⟩

/-- Witness for `calculatePoints_total_on_validated`: the market receipt. -/
theorem calculatePoints_total_on_validated_witness :
    matchDate marketReceipt.PurchaseDate = true ∧ matchTime marketReceipt.PurchaseTime = true ∧
    3 ≤ (strings.Split marketReceipt.PurchaseDate '-').length ∧
    2 ≤ (strings.Split marketReceipt.PurchaseTime ':').length ∧
    ((strings.Split marketReceipt.PurchaseDate '-')[2]?).isSome = true ∧
    ((strings.Split marketReceipt.PurchaseTime ':')[0]?).isSome = true ∧
    ((strings.Split marketReceipt.PurchaseTime ':')[1]?).isSome = true ∧
    ∃ points : String, calculatePoints convAMD64 marketReceipt = some points :=
  ⟨by decide, by decide,
    calculatePoints_total_on_validated convAMD64 marketReceipt (by decide) (by decide)⟩

/-! ## Trimming a validated description -/

theorem len_pos_of_ne_nil {s : String} (h : s.data ≠ []) : 1 ≤ len s := by
  obtain ⟨l⟩ := s
  cases l with
  | nil => exact absurd rfl h
  | cons c cs =>
    have hc : 0 < c.utf8Size := Char.utf8Size_pos c
    have : (String.mk (c :: cs)).utf8ByteSize = (String.mk cs).utf8ByteSize + c.utf8Size := by
      simp [String.utf8ByteSize, String.utf8ByteSize.go]
    unfold len
    omega

/-- C19 as stated fails: the pattern `^\S+$` of Go's regexp package excludes only tab, line
feed, form feed, carriage return and space, so it accepts the no-break space U+00A0 and the
vertical tab, which `strings.TrimSpace` removes.  The description "\u00a0abc" (5 bytes) is
accepted and trimmed to "abc" (3 bytes), and the description "\u00a0" is accepted and trimmed
to the empty string, of length 0; both receipts pass validation and earn the description bonus
(score "100"), which the untrimmed 5-byte description "xxabc" does not (score "99"). -/
theorem trim_changes_validated_description :
    matchNoSpace "\u00a0abc" = true ∧ strings.TrimSpace "\u00a0abc" = "abc" ∧
    len "\u00a0abc" = 5 ∧ len (strings.TrimSpace "\u00a0abc") = 3 ∧
    matchNoSpace "\x0babc" = true ∧ strings.TrimSpace "\x0babc" = "abc" ∧
    matchNoSpace "\u00a0" = true ∧ len (strings.TrimSpace "\u00a0") = 0 ∧
    validate { marketReceipt with Items := [⟨"\u00a0abc", "5.00"⟩] } = true ∧
    calculatePoints convAMD64 { marketReceipt with Items := [⟨"\u00a0abc", "5.00"⟩] } =
      some "100" ∧
    calculatePoints convAMD64 { marketReceipt with Items := [⟨"xxabc", "5.00"⟩] } = some "99" ∧
    validate { marketReceipt with Items := [⟨"\u00a0", "5.00"⟩] } = true ∧
    calculatePoints convAMD64 { marketReceipt with Items := [⟨"\u00a0", "5.00"⟩] } =
      some "100" := by
  refine ⟨by decide, by decide, by decide, by decide, by decide, by decide, by decide, by decide,
    by decide, by decide!, by decide!, by decide, by decide!⟩

/-- C19, amended (validation and trimming).  For every description accepted by the pattern
`^\S+$` whose first and last characters are not white space in the sense of `unicode.IsSpace`
(the pattern itself excludes only tab, line feed, form feed, carriage return and space),
`strings.TrimSpace` leaves the description unchanged, hence the trimmed length used by the
description-length rule is the length of the submitted description and is at least 1. -/
theorem trim_noop_on_validated_description (description : String)
    (hmatch : matchNoSpace description = true)
    (hfirst : ∀ c, description.data.head? = some c → unicode.IsSpace c = false)
    (hlast : ∀ c, description.data.getLast? = some c → unicode.IsSpace c = false) :
    strings.TrimSpace description = description ∧
    len (strings.TrimSpace description) = len description ∧
    1 ≤ len (strings.TrimSpace description) := by
  have hne : description.data ≠ [] := by
    unfold matchNoSpace at hmatch
    simp only [Bool.and_eq_true, Bool.not_eq_true', List.isEmpty_eq_false] at hmatch
    exact hmatch.1
  have h1 : description.data.dropWhile unicode.IsSpace = description.data := by
    rw [List.dropWhile_eq_self_iff]
    intro hpos
    have := hfirst _ (List.head?_eq_head hne)
    rw [List.head_eq_getElem] at this
    simp [this]
  have h2 : description.data.rdropWhile unicode.IsSpace = description.data := by
    rw [List.rdropWhile_eq_self_iff]
    intro hne'
    have := hlast _ (List.getLast?_eq_getLast _ hne')
    simp_all
  have htrim : strings.TrimSpace description = description := by
    unfold strings.TrimSpace
    rw [h1, h2]
  refine ⟨htrim, by rw [htrim], ?_⟩
  rw [htrim]
  exact len_pos_of_ne_nil hne

/-- Witness for `trim_noop_on_validated_description`: the description "Gatorade". -/
theorem trim_noop_on_validated_description_witness :
    matchNoSpace "Gatorade" = true ∧
    (∀ c, "Gatorade".data.head? = some c → unicode.IsSpace c = false) ∧
    (∀ c, "Gatorade".data.getLast? = some c → unicode.IsSpace c = false) ∧
    strings.TrimSpace "Gatorade" = "Gatorade" ∧
    len (strings.TrimSpace "Gatorade") = len "Gatorade" ∧
    1 ≤ len (strings.TrimSpace "Gatorade") := by
  have h1 : ∀ c, "Gatorade".data.head? = some c → unicode.IsSpace c = false := by
    intro c h
    have e : "Gatorade".data.head? = some 'G' := by decide
    rw [e] at h; cases h; decide
  have h2 : ∀ c, "Gatorade".data.getLast? = some c → unicode.IsSpace c = false := by
    intro c h
    have e : "Gatorade".data.getLast? = some 'e' := by decide
    rw [e] at h; cases h; decide
  exact ⟨by decide, h1, h2, trim_noop_on_validated_description "Gatorade" (by decide) h1 h2⟩

/-! ## Prices that do not parse -/

theorem ParseFloat_of_ErrSyntax {s : String}
    (h : (strconv.ParseFloat s).2 = some strconv.NumError.ErrSyntax) :
    (strconv.ParseFloat s).1 = .finite 0 := by
  unfold strconv.ParseFloat at h ⊢
  split
  · rename_i v hv
    rw [hv] at h; simp at h
  · rename_i hs
    rw [hs] at h
    split
    · rfl
    · rename_i q hq
      rw [hq] at h
      simp only at h
      split at h
      · simp at h
      · simp at h

theorem descriptionPoints_of_ErrSyntax (conv : Float64 → Int) {item : Item}
    (h : (strconv.ParseFloat item.Price).2 = some strconv.NumError.ErrSyntax) :
    descriptionPoints conv item = 0 := by
  have hc : math.Ceil (Float64.mul (.finite 0) (float64Const 0.2)) = .finite 0 := by decide!
  unfold descriptionPoints
  split_ifs
  · rw [ParseFloat_of_ErrSyntax h, hc]
    simp [float64ToInt, math.truncRat, minInt, maxInt]
  · rfl

theorem descriptionPoints_zero_price (conv : Float64 → Int) (description : String) :
    descriptionPoints conv ⟨description, "0.00"⟩ = 0 := by
  have hc : math.Ceil (Float64.mul (strconv.ParseFloat "0.00").1 (float64Const 0.2)) = .finite 0 := by
    decide!
  unfold descriptionPoints
  split_ifs
  · simp only [hc]
    simp [float64ToInt, math.truncRat, minInt, maxInt]
  · rfl

/-- C17 (unparseable item price tolerated as zero), evaluated where the code departs from it.
The price `hugePrice` matches the validated pattern and fails to parse: `strconv.ParseFloat`
returns the error `ErrRange`, with the value +Inf.  The loop over the items discards the error
(`price, _ :=`) and uses the value: with a 3-byte description the item contributes
`int(math.Ceil(+Inf * 0.2))`, the result of converting +Inf, whatever the conversion `conv`
gives, instead of 0; on amd64 that is the smallest `int`, and the receipt, which passes
validation, scores "-9223372036854775709" instead of the "99" it scores with the price
"0.00".  The code for the total checks the error: the same string as the total adds nothing
(score "34", as for any total without rule 2 or rule 3). -/
theorem range_error_price_counts_as_infinity :
    matchMoney hugePrice = true ∧
    validate { marketReceipt with Items := [⟨"abc", hugePrice⟩] } = true ∧
    strconv.ParseFloat hugePrice = (.inf false, some .ErrRange) ∧
    (∀ conv : Float64 → Int,
      descriptionPoints conv ⟨"abc", hugePrice⟩ = wrapInt (conv (.inf false))) ∧
    descriptionPoints convAMD64 ⟨"abc", hugePrice⟩ = minInt ∧
    calculatePoints convAMD64 { marketReceipt with Items := [⟨"abc", hugePrice⟩] } =
      some "-9223372036854775709" ∧
    calculatePoints convAMD64 { marketReceipt with Items := [⟨"abc", "0.00"⟩] } = some "99" ∧
    roundDollarPoints hugePrice + quarterPoints hugePrice = 0 ∧
    calculatePoints convAMD64 { marketReceipt with Total := hugePrice } = some "34" ∧
    calculatePoints convAMD64 { marketReceipt with Total := "9.01" } = some "34" := by
  have hc : math.Ceil (Float64.mul (strconv.ParseFloat hugePrice).1 (float64Const 0.2)) =
      .inf false := by decide!
  refine ⟨by decide!, by decide!, by decide!, ?_, by decide!, by decide!, by decide!, by decide!,
    by decide!, by decide!⟩
  intro conv
  unfold descriptionPoints
  rw [if_pos (by decide), hc]
  rfl

/-- The part of C17 that the code satisfies.  For every receipt and every item of it whose
price string is not a well-formed number (`strconv.ParseFloat` returns `ErrSyntax`), that item
contributes exactly 0 points to the description-length rule, whatever its description is, and
the result of `calculatePoints` is the result for the same receipt with that item's price
replaced by "0.00"; whether `calculatePoints` returns depends on the date and the time only,
not on any price. -/
theorem malformed_price_counts_zero (conv : Float64 → Int) (receipt : Receipt)
    (before : List Item) (item : Item) (after : List Item)
    (hitems : receipt.Items = before ++ item :: after)
    (herr : (strconv.ParseFloat item.Price).2 = some strconv.NumError.ErrSyntax) :
    descriptionPoints conv item = 0 ∧
    calculatePoints conv receipt =
      calculatePoints conv
        { receipt with Items := before ++ { item with Price := "0.00" } :: after } ∧
    (calculatePoints conv receipt).isSome =
      ((oddDayPoints receipt.PurchaseDate).isSome &&
        (afternoonPoints receipt.PurchaseTime).isSome) := by
  have h0 := descriptionPoints_of_ErrSyntax conv herr
  refine ⟨h0, ?_, ?_⟩
  · unfold calculatePoints
    rw [calculatePointsInt_eq, calculatePointsInt_eq]
    have hlen : itemCountPoints receipt.Items =
        itemCountPoints (before ++ { item with Price := "0.00" } :: after) := by
      unfold itemCountPoints
      rw [hitems]
      simp
    have hsum : (receipt.Items.map (descriptionPoints conv)).sum =
        ((before ++ { item with Price := "0.00" } :: after).map (descriptionPoints conv)).sum := by
      rw [hitems]
      simp only [List.map_append, List.map_cons, List.sum_append, List.sum_cons, h0,
        descriptionPoints_zero_price]
    simp only [hlen, hsum]
  · unfold calculatePoints
    rw [calculatePointsInt_eq]
    cases oddDayPoints receipt.PurchaseDate <;> cases afternoonPoints receipt.PurchaseTime <;> rfl

/-- An instance of `malformed_price_counts_zero`: the market receipt with a second item priced
"12x". -/
theorem malformed_price_counts_zero_example :
    ({ marketReceipt with Items := [⟨"Gatorade", "2.25"⟩, ⟨"abc", "12x"⟩] } : Receipt).Items =
      [⟨"Gatorade", "2.25"⟩] ++ (⟨"abc", "12x"⟩ : Item) :: [] ∧
    (strconv.ParseFloat "12x").2 = some strconv.NumError.ErrSyntax ∧
    descriptionPoints convAMD64 ⟨"abc", "12x"⟩ = 0 ∧
    calculatePoints convAMD64
        { marketReceipt with Items := [⟨"Gatorade", "2.25"⟩, ⟨"abc", "12x"⟩] } =
      calculatePoints convAMD64
        { marketReceipt with Items := [⟨"Gatorade", "2.25"⟩] ++ [⟨"abc", "0.00"⟩] } :=
  have h := malformed_price_counts_zero convAMD64
    { marketReceipt with Items := [⟨"Gatorade", "2.25"⟩, ⟨"abc", "12x"⟩] }
    [⟨"Gatorade", "2.25"⟩] ⟨"abc", "12x"⟩ [] rfl (by decide!)
  ⟨rfl, by decide!, h.1, h.2.1⟩

/-! ## `strconv.Itoa` and `strconv.ParseInt` -/

theorem digitChar_spec (d : Nat) (h : d < 10) :
    (Char.ofNat ('0'.toNat + d)).isDigit = true ∧
    (Char.ofNat ('0'.toNat + d)).toNat - '0'.toNat = d ∧
    Char.ofNat ('0'.toNat + d) ≠ '-' ∧ Char.ofNat ('0'.toNat + d) ≠ '+' := by
  interval_cases d <;> decide

theorem parseUintLoop_digit (maxVal : Nat) (d k : Nat) (cs : List Char) (hd : d < 10)
    (hk : k * 10 + d ≤ maxVal) (hmax : maxVal < 2 ^ 64) :
    strconv.parseUintLoop maxVal (Char.ofNat ('0'.toNat + d) :: cs) k =
      strconv.parseUintLoop maxVal cs (k * 10 + d) := by
  obtain ⟨h1, h2, _, _⟩ := digitChar_spec d hd
  have hmod : (k * 10 + d) % 2 ^ 64 = k * 10 + d := Nat.mod_eq_of_lt (by omega)
  rw [strconv.parseUintLoop]
  simp only [h1, if_true, h2, hmod]
  rw [if_neg (by omega), if_neg (by omega)]

theorem parseUintLoop_formatDigits (maxVal fuel : Nat) (hmax : maxVal < 2 ^ 64) :
    ∀ (n : Nat) (acc : List Char), n < 10 ^ fuel → n ≤ maxVal →
      strconv.parseUintLoop maxVal (strconv.formatDigits fuel n acc) 0 =
        strconv.parseUintLoop maxVal acc n := by
  induction fuel with
  | zero =>
    intro n acc hn _
    have : n = 0 := by simpa using hn
    subst this
    rfl
  | succ fuel ih =>
    intro n acc hn hle
    have hd : n % 10 < 10 := Nat.mod_lt _ (by omega)
    rw [strconv.formatDigits]
    split_ifs with h0
    · have hn' : n = n % 10 := by omega
      rw [parseUintLoop_digit maxVal (n % 10) 0 acc hd (by omega) hmax]
      congr 1; omega
    · have hlt : n / 10 < 10 ^ fuel := by
        rw [Nat.div_lt_iff_lt_mul (by omega)]
        rw [pow_succ] at hn
        exact hn
      rw [ih (n / 10) _ hlt (by omega),
        parseUintLoop_digit maxVal (n % 10) (n / 10) acc hd (by omega) hmax]
      congr 1; omega

theorem formatDigits_head (fuel n : Nat) (acc : List Char) :
    ∃ d tl, d < 10 ∧ strconv.formatDigits (fuel + 1) n acc = Char.ofNat ('0'.toNat + d) :: tl := by
  induction fuel generalizing n acc with
  | zero =>
    refine ⟨n % 10, acc, Nat.mod_lt _ (by omega), ?_⟩
    simp [strconv.formatDigits]
  | succ fuel ih =>
    rw [strconv.formatDigits]
    split_ifs
    · exact ⟨n % 10, acc, Nat.mod_lt _ (by omega), rfl⟩
    · exact ih (n / 10) _

theorem formatDigits_all_isDigit (fuel n : Nat) (acc : List Char)
    (h : acc.all Char.isDigit = true) :
    (strconv.formatDigits fuel n acc).all Char.isDigit = true := by
  induction fuel generalizing n acc with
  | zero => exact h
  | succ fuel ih =>
    have hd := (digitChar_spec (n % 10) (Nat.mod_lt _ (by omega))).1
    have hacc : (Char.ofNat ('0'.toNat + n % 10) :: acc).all Char.isDigit = true := by
      simp only [List.all_cons, hd, h, Bool.and_self]
    rw [strconv.formatDigits]
    split_ifs
    · exact hacc
    · exact ih (n / 10) _ hacc

theorem ParseUint_formatDigits (n : Nat) (h : n < 2 ^ 64) :
    strconv.ParseUint (strconv.formatDigits 20 n []) 64 = (n, none) := by
  obtain ⟨d, tl, _, htl⟩ := formatDigits_head 19 n []
  unfold strconv.ParseUint
  rw [if_neg (by rw [htl]; simp)]
  rw [parseUintLoop_formatDigits (2 ^ 64 - 1) 20 (by norm_num) n [] (by omega) (by omega)]
  rfl

theorem ParseInt_minus (l : List Char) (un : Nat) (hu : strconv.ParseUint l 64 = (un, none))
    (hle : un ≤ 2 ^ 63) : strconv.ParseInt (String.mk ('-' :: l)) 64 = (-(un : Int), none) := by
  unfold strconv.ParseInt
  simp only [List.head?_cons, List.tail_cons, or_true, if_true, hu, reduceCtorEq, if_false]
  rw [if_neg (by simp), if_neg (by omega)]

theorem ParseInt_unsigned (c : Char) (tl : List Char) (un : Nat) (hminus : c ≠ '-')
    (hplus : c ≠ '+') (hu : strconv.ParseUint (c :: tl) 64 = (un, none)) (hlt : un < 2 ^ 63) :
    strconv.ParseInt (String.mk (c :: tl)) 64 = ((un : Int), none) := by
  unfold strconv.ParseInt
  simp only [List.head?_cons, Option.some.injEq, hminus, hplus, or_self, if_false, hu,
    reduceCtorEq]
  rw [if_neg (by omega)]
  simp

theorem ParseInt_Itoa (p : Int) (h₁ : minInt ≤ p) (h₂ : p ≤ maxInt) :
    strconv.ParseInt (strconv.Itoa p) 64 = (p, none) := by
  unfold minInt at h₁
  unfold maxInt at h₂
  obtain ⟨d, tl, hd, htl⟩ := formatDigits_head 19 p.natAbs []
  obtain ⟨_, _, hminus, hplus⟩ := digitChar_spec d hd
  have hu := ParseUint_formatDigits p.natAbs (by omega)
  unfold strconv.Itoa
  by_cases hneg : p < 0
  · rw [if_pos hneg, ParseInt_minus _ _ hu (by omega)]
    congr 1; omega
  · rw [if_neg hneg]
    rw [htl] at hu ⊢
    rw [ParseInt_unsigned _ _ _ hminus hplus hu (by omega)]
    congr 1; omega

theorem Itoa_all_isDigit (p : Int) (h : 0 ≤ p) : (strconv.Itoa p).data.all Char.isDigit = true := by
  unfold strconv.Itoa
  rw [if_neg (by omega)]
  exact formatDigits_all_isDigit 20 p.natAbs [] rfl

/-! ## Signs of the rule amounts -/

theorem Float64.round_nonneg {q : ℚ} (h : 0 ≤ q) : (Float64.round q).nonneg := by
  unfold Float64.round
  have hq : ¬ q < 0 := not_lt.mpr h
  by_cases h0 : q = 0
  · rw [if_pos h0]; exact le_refl _
  · rw [if_neg h0]
    simp only [hq, decide_False, if_false]
    split_ifs <;> simp only [Float64.nonneg] <;>
      first
        | (rw [Rat.mkRat_eq_div]; positivity)
        | positivity

theorem strconv.scale_nonneg (m b : Nat) (k : Int) : 0 ≤ strconv.scale m b k := by
  unfold strconv.scale
  split_ifs
  · positivity
  · rw [Rat.mkRat_eq_div]; positivity

theorem strconv.readFloat_nonneg {s : List Char} (hneg : s.head? ≠ some '-') {q : ℚ}
    (h : strconv.readFloat s = some q) : 0 ≤ q := by
  unfold strconv.readFloat at h
  simp only [hneg, if_false, or_false] at h
  split_ifs at h
  all_goals (try split at h)
  all_goals (try split at h)
  all_goals (try simp only [Option.some.injEq, reduceCtorEq] at h)
  all_goals
    rw [← h]
    exact strconv.scale_nonneg _ _ _

theorem strconv.lowered_ne_nan {s : List Char} {c : Char} (hhead : s.head? = some c)
    (hc : c.isDigit = true) :
    List.map (fun c => if 'A' ≤ c ∧ c ≤ 'Z' then Char.ofNat (c.toNat + 32) else c) s ≠
      ['n', 'a', 'n'] := by
  intro h2
  cases s with
  | nil => simp at hhead
  | cons a t =>
    simp only [List.head?_cons, Option.some.injEq] at hhead
    subst hhead
    simp only [List.map_cons] at h2
    have ha : ¬ ('A' ≤ a ∧ a ≤ 'Z') := by
      rcases isDigit_cases hc with h | h | h | h | h | h | h | h | h | h <;> subst h <;> decide
    rw [if_neg ha] at h2
    have : a = 'n' := (List.cons.inj h2).1
    subst this
    revert hc; decide

theorem strconv.special_nonneg {s : List Char} {c : Char} (hhead : s.head? = some c)
    (hc : c.isDigit = true) {v : Float64} (h : strconv.special s = some v) : v.nonneg := by
  have hminus : s.head? ≠ some '-' := by
    rw [hhead]; intro e; cases e; revert hc; decide
  unfold strconv.special at h
  simp only [hminus, decide_False] at h
  split_ifs at h
  all_goals
    first
      | (cases h; rfl)
      | (exfalso; exact strconv.lowered_ne_nan hhead hc (by assumption))

theorem strconv.ParseFloat_nonneg {s : String} {c : Char} (hhead : s.data.head? = some c)
    (hc : c.isDigit = true) : (strconv.ParseFloat s).1.nonneg := by
  have hminus : s.data.head? ≠ some '-' := by
    rw [hhead]; intro e; cases e; revert hc; decide
  unfold strconv.ParseFloat
  split
  · rename_i v hv
    exact strconv.special_nonneg hhead hc hv
  · split
    · exact le_refl _
    · rename_i q hq
      have hr := Float64.round_nonneg (strconv.readFloat_nonneg hminus hq)
      split
      · rename_i n hn
        rw [hn] at hr; exact hr
      · exact hr

theorem matchMoney_head {s : String} (h : matchMoney s = true) :
    ∃ c, s.data.head? = some c ∧ c.isDigit = true := by
  unfold matchMoney at h
  simp only [Bool.and_eq_true, Bool.not_eq_true', List.isEmpty_eq_false, List.all_eq_true] at h
  obtain ⟨⟨hne, hall⟩, _⟩ := h
  cases hd : s.data with
  | nil => rw [hd] at hne; simp at hne
  | cons c cs =>
    rw [hd] at hne hall
    refine ⟨c, rfl, hall c ?_⟩
    cases hk : (c :: cs).length - 3 with
    | zero => rw [hk] at hne; simp at hne
    | succ k => simp

theorem Float64.mul_fifth_nonneg {x : Float64} (h : x.nonneg) :
    (Float64.mul x (float64Const 0.2)).nonneg := by
  have hc : float64Const 0.2 = .finite (3602879701896397 / 18014398509481984) := by decide!
  rw [hc]
  cases x with
  | finite a =>
    simp only [Float64.nonneg] at h
    simp only [Float64.mul]
    exact Float64.round_nonneg (by positivity)
  | inf n =>
    simp only [Float64.nonneg] at h
    subst h
    simp only [Float64.mul]
    norm_num [Float64.nonneg]
  | nan => exact absurd h (by simp [Float64.nonneg])

theorem math.Ceil_nonneg {x : Float64} (h : x.nonneg) : (math.Ceil x).nonneg := by
  cases x with
  | finite q =>
    rw [math.Ceil_finite]
    simp only [Float64.nonneg] at h ⊢
    exact_mod_cast Int.ceil_nonneg h
  | inf n => exact h
  | nan => exact h

theorem float64ToInt_nonneg (conv : Float64 → Int) {x : Float64} (h : x.nonneg)
    (hfit : fitsInt x = true) : 0 ≤ float64ToInt conv x := by
  cases x with
  | finite q =>
    simp only [Float64.nonneg] at h
    simp only [fitsInt, Bool.and_eq_true, decide_eq_true_eq] at hfit
    simp only [float64ToInt, hfit, and_self, if_true]
    unfold math.truncRat
    exact Int.tdiv_nonneg (Rat.num_nonneg.mpr h) (Int.ofNat_nonneg _)
  | inf n => simp [fitsInt] at hfit
  | nan => simp [fitsInt] at hfit

theorem descriptionPoints_nonneg (conv : Float64 → Int) {item : Item}
    (hprice : matchMoney item.Price = true)
    (hfit : fitsInt (math.Ceil
      (Float64.mul (strconv.ParseFloat item.Price).1 (float64Const 0.2))) = true) :
    0 ≤ descriptionPoints conv item := by
  obtain ⟨c, hhead, hc⟩ := matchMoney_head hprice
  unfold descriptionPoints
  split_ifs
  · exact float64ToInt_nonneg conv
      (math.Ceil_nonneg (Float64.mul_fifth_nonneg (strconv.ParseFloat_nonneg hhead hc))) hfit
  · exact le_refl _

theorem retailerPoints_nonneg (retailer : String) : 0 ≤ CountAlphanum retailer := by
  unfold CountAlphanum
  rw [foldl_count_alphanum, zero_add]
  exact Int.ofNat_nonneg _

theorem totalPoints_nonneg (total : String) :
    0 ≤ roundDollarPoints total ∧ 0 ≤ quarterPoints total := by
  unfold roundDollarPoints quarterPoints
  constructor <;> split_ifs <;> omega

theorem oddDayPoints_nonneg {date : String} {day : Int} (h : oddDayPoints date = some day) :
    0 ≤ day := by
  unfold oddDayPoints at h
  cases hs : (strings.Split date '-')[2]? with
  | none => rw [hs] at h; simp at h
  | some d =>
    rw [hs] at h
    simp only [Option.map_some', Option.some.injEq] at h
    rw [← h]; split_ifs <;> omega

theorem afternoonPoints_nonneg {time : String} {afternoon : Int}
    (h : afternoonPoints time = some afternoon) : 0 ≤ afternoon := by
  unfold afternoonPoints at h
  split at h
  · simp only [Option.some.injEq] at h
    rw [← h]; split_ifs <;> omega
  · simp at h

theorem calculatePointsInt_eq_exactSum (conv : Float64 → Int) (receipt : Receipt) :
    calculatePointsInt conv receipt =
      (oddDayPoints receipt.PurchaseDate).bind fun day =>
        (afternoonPoints receipt.PurchaseTime).map fun afternoon =>
          wrapInt (exactSum conv receipt day afternoon) := by
  have h : ∀ a x s d t : Int,
      wrapInt (a + wrapInt x + s + d + t) = wrapInt (a + x + s + d + t) := by
    intro a x s d t; unfold wrapInt; omega
  rw [calculatePointsInt_eq]
  simp only [itemCountPoints_eq, h, exactSum, retailerPoints]

/-! ## The returned string -/

/-- C16 as stated fails: the receipt with two items "abc" priced "46116860184273874000.00"
passes validation; each item contributes 9223372036854774784 points, the contributions (all
non-negative) add up to 18446744073709549672, which is more than an `int` holds, and
`calculatePoints` returns "-1944": a string with a sign, which does not denote the sum. -/
theorem costly_receipt_scores_negative :
    bindRequired costlyReceipt = true ∧ validate costlyReceipt = true ∧
    descriptionPoints convAMD64 ⟨"abc", "46116860184273874000.00"⟩ = 9223372036854774784 ∧
    oddDayPoints costlyReceipt.PurchaseDate = some 0 ∧
    afternoonPoints costlyReceipt.PurchaseTime = some 10 ∧
    exactSum convAMD64 costlyReceipt 0 10 = 18446744073709549672 ∧
    calculatePoints convAMD64 costlyReceipt = some "-1944" ∧
    strconv.ParseInt "-1944" 64 = (-1944, none) := by
  refine ⟨by decide, by decide, by decide!, by decide, by decide, by decide!, by decide!,
    by decide⟩

/-- C16, amended (string-encoded score).  For every receipt that passes validation,
`calculatePoints` returns a score: the base-10 string encoding (`strconv.Itoa`) of the `int`
that the rule contributions add up to with 64-bit wrap-around, and parsing the returned string
as an integer gives back that `int`.  When the value `math.Ceil(price * 0.2)` of every item is
within the range of `int` and the sum of the rule contributions is at most the largest `int`,
the score is that sum: a non-negative integer, encoded with digits only and no sign, which
parsing gives back. -/
theorem validated_score_encoding (conv : Float64 → Int) (receipt : Receipt)
    (hv : validate receipt = true) :
    ∃ day afternoon : Int,
      oddDayPoints receipt.PurchaseDate = some day ∧
      afternoonPoints receipt.PurchaseTime = some afternoon ∧
      calculatePoints conv receipt =
        some (strconv.Itoa (wrapInt (exactSum conv receipt day afternoon))) ∧
      strconv.ParseInt (strconv.Itoa (wrapInt (exactSum conv receipt day afternoon))) 64 =
        (wrapInt (exactSum conv receipt day afternoon), none) ∧
      ((∀ item ∈ receipt.Items, fitsInt (math.Ceil
          (Float64.mul (strconv.ParseFloat item.Price).1 (float64Const 0.2))) = true) →
        exactSum conv receipt day afternoon ≤ maxInt →
        0 ≤ exactSum conv receipt day afternoon ∧
        calculatePoints conv receipt = some (strconv.Itoa (exactSum conv receipt day afternoon)) ∧
        (strconv.Itoa (exactSum conv receipt day afternoon)).data.all Char.isDigit = true ∧
        strconv.ParseInt (strconv.Itoa (exactSum conv receipt day afternoon)) 64 =
          (exactSum conv receipt day afternoon, none)) := by
  have hv' := hv
  unfold validate at hv'
  simp only [Bool.and_eq_true, List.all_eq_true, decide_eq_true_eq] at hv'
  obtain ⟨⟨⟨⟨hdate, htime⟩, _⟩, _⟩, hitems⟩ := hv'
  obtain ⟨day, hodd⟩ : ∃ day, oddDayPoints receipt.PurchaseDate = some day := by
    obtain ⟨dayStr, _, _, _, _, hodd⟩ := oddDayPoints_of_matchDate hdate
    exact ⟨_, hodd⟩
  obtain ⟨afternoon, ha⟩ := afternoonPoints_of_matchTime htime
  have hcalc : calculatePoints conv receipt =
      some (strconv.Itoa (wrapInt (exactSum conv receipt day afternoon))) := by
    unfold calculatePoints
    rw [calculatePointsInt_eq_exactSum, hodd, ha]
    rfl
  have hb := wrapInt_bounds (exactSum conv receipt day afternoon)
  refine ⟨day, afternoon, hodd, ha, hcalc, ParseInt_Itoa _ hb.1 hb.2, ?_⟩
  intro hfit hle
  have hnonneg : 0 ≤ exactSum conv receipt day afternoon := by
    have h1 := retailerPoints_nonneg receipt.Retailer
    have h2 := totalPoints_nonneg receipt.Total
    have h3 : 0 ≤ (receipt.Items.map (descriptionPoints conv)).sum := by
      apply List.sum_nonneg
      intro x hx
      obtain ⟨item, hmem, rfl⟩ := List.mem_map.mp hx
      exact descriptionPoints_nonneg conv (hitems item hmem).2 (hfit item hmem)
    have h4 := oddDayPoints_nonneg hodd
    have h5 := afternoonPoints_nonneg ha
    have h6 : (0 : Int) ≤ 5 * ((receipt.Items.length / 2 : Nat) : Int) := by positivity
    unfold exactSum
    omega
  have hw : wrapInt (exactSum conv receipt day afternoon) =
      exactSum conv receipt day afternoon :=
    wrapInt_of_mem (by unfold minInt; omega) hle
  refine ⟨hnonneg, by rw [hcalc, hw], Itoa_all_isDigit _ hnonneg, ?_⟩
  exact ParseInt_Itoa _ (by unfold minInt; omega) hle

/-- Witness for `validated_score_encoding`: the market receipt, which scores "109". -/
theorem validated_score_encoding_witness :
    validate marketReceipt = true ∧
    calculatePoints convAMD64 marketReceipt = some "109" ∧
    ∃ day afternoon : Int,
      oddDayPoints marketReceipt.PurchaseDate = some day ∧
      afternoonPoints marketReceipt.PurchaseTime = some afternoon ∧
      calculatePoints convAMD64 marketReceipt =
        some (strconv.Itoa (wrapInt (exactSum convAMD64 marketReceipt day afternoon))) ∧
      strconv.ParseInt (strconv.Itoa (wrapInt (exactSum convAMD64 marketReceipt day afternoon)))
        64 = (wrapInt (exactSum convAMD64 marketReceipt day afternoon), none) ∧
      ((∀ item ∈ marketReceipt.Items, fitsInt (math.Ceil
          (Float64.mul (strconv.ParseFloat item.Price).1 (float64Const 0.2))) = true) →
        exactSum convAMD64 marketReceipt day afternoon ≤ maxInt →
        0 ≤ exactSum convAMD64 marketReceipt day afternoon ∧
        calculatePoints convAMD64 marketReceipt =
          some (strconv.Itoa (exactSum convAMD64 marketReceipt day afternoon)) ∧
        (strconv.Itoa (exactSum convAMD64 marketReceipt day afternoon)).data.all Char.isDigit =
          true ∧
        strconv.ParseInt (strconv.Itoa (exactSum convAMD64 marketReceipt day afternoon)) 64 =
          (exactSum convAMD64 marketReceipt day afternoon, none)) :=
  ⟨by decide, by decide!, validated_score_encoding convAMD64 marketReceipt (by decide)⟩
